import Mathlib

/-!
Verification development for the appointment-booking backend (`src/server.js`).

The core under scrutiny is the slot/appointment subsystem:
* table `doctor_slots` (id, doctor_user_id, slot_at, is_booked),
* table `appointments` (id, patient_user_id, doctor_user_id, scheduled_at, status),
* route `POST /appointments` (claim a slot inside a transaction),
* route `DELETE /appointments/:id` (cancel, freeing the slot by composite key),
* route `POST /doctor/slots` (bulk publish via INSERT IGNORE),
* route `DELETE /doctor/slots/:id` (delete a slot if not booked),
* route `GET /doctors/:username/slots` (patient-facing future-slot listing).

The two tables' DDL is schema.sql (`src/unnamed/part_000`): both carry a
composite unique key, `ux_doctor_slot (doctor_user_id, slot_at)` and
`ux_appt_doctor_time (doctor_user_id, scheduled_at)`.
Timestamps (`DATETIME` values such as "2025-03-01 10:00:00") are modelled as
natural numbers; only equality and order on them matter to the routes.
SQL execution is modelled sequentially: each route handler is a function from
a database state to a result together with the successor state, and each
transaction either commits in full or leaves the state untouched (rollback).
-/

/-- A row of the `doctor_slots` table. -/
structure Slot where
  id : Nat
  doctor_user_id : Nat
  slot_at : Nat
  is_booked : Bool
deriving DecidableEq, Repr

/-- A row of the `appointments` table (`created_at` is irrelevant to the
claims and omitted). -/
structure Appointment where
  id : Nat
  patient_user_id : Nat
  doctor_user_id : Nat
  scheduled_at : Nat
  status : String
deriving DecidableEq, Repr

/-- The database state visible to the booking subsystem.  `doctors` is the
set of ids of `users` rows whose role is 'doctor' (the booking SELECT joins
`users` on `u.id = ds.doctor_user_id AND u.role = 'doctor'`).  `nextSlotId`
and `nextApptId` model the AUTO_INCREMENT counters of the two tables. -/
structure DB where
  doctors : List Nat
  slots : List Slot
  appointments : List Appointment
  nextSlotId : Nat
  nextApptId : Nat
deriving DecidableEq, Repr

/-- Outcome of `POST /appointments`. -/
inductive BookResult where
  /-- 404 "Slot not found" -/
  | notFound
  /-- 409 "Slot already booked" — the optimistic pre-check on the cached flag -/
  | conflictBooked
  /-- 409 "Slot already booked (race)" — the conditional UPDATE affected 0 rows -/
  | conflictRace
  /-- 500 "Failed to book slot" — transaction error, rolled back -/
  | internalErr
  /-- 201 with the created appointment row and the echoed `slot_id` -/
  | created (a : Appointment) (slot_id : Nat)
deriving DecidableEq, Repr

/-- Whether an INSERT into `appointments` of the composite key `(d, t)`
would violate the table's unique constraint `UNIQUE KEY ux_appt_doctor_time
(doctor_user_id, scheduled_at)` (schema.sql in `src/unnamed/part_000`; the
same DDL is repeated in the comment block above the appointment routes).
The INSERT throws exactly when a row with that pair already exists. -/
def apptKeyExists (db : DB) (d t : Nat) : Bool :=
  db.appointments.any (fun a => a.doctor_user_id == d && a.scheduled_at == t)

/-- The row set of `UPDATE doctor_slots SET is_booked = 1 WHERE id = ? AND
is_booked = 0`: every row matching the WHERE clause gets its flag set. -/
def bookedSlotUpdate (slots : List Slot) (slotId : Nat) : List Slot :=
  slots.map (fun s => if s.id == slotId && !s.is_booked then { s with is_booked := true } else s)

/-- The affected-row count of that conditional UPDATE: the number of rows
matching `id = ? AND is_booked = 0`. -/
def bookedSlotAffected (slots : List Slot) (slotId : Nat) : Nat :=
  (slots.filter (fun s => s.id == slotId && !s.is_booked)).length

/-- `POST /appointments` (server.js lines 285-344).  Inputs: the
authenticated patient id and the request-body `doctorSlotId`.

1. `SELECT ds.id, ds.slot_at, ds.doctor_user_id, ds.is_booked FROM
   doctor_slots ds JOIN users u ON u.id = ds.doctor_user_id AND
   u.role = 'doctor' WHERE ds.id = ?` — 404 if no row.
2. 409 if `slot.is_booked` (optimistic pre-check).
3. Transaction: `UPDATE doctor_slots SET is_booked = 1 WHERE id = ? AND
   is_booked = 0`; if `affectedRows = 0` rollback and 409 (race).
4. `INSERT INTO appointments (...) VALUES (...)`; if the INSERT throws
   (unique `(doctor_user_id, scheduled_at)` violated) the catch block rolls
   the transaction back and returns 500 "Failed to book slot".
5. Commit; 201 with the new appointment row and `slot_id`. -/
def bookAppointment (db : DB) (patientId slotId : Nat) : BookResult × DB :=
  match db.slots.find? (fun s => s.id == slotId && db.doctors.contains s.doctor_user_id) with
  | none => (.notFound, db)
  | some slot =>
    if slot.is_booked then (.conflictBooked, db)
    else if bookedSlotAffected db.slots slotId == 0 then (.conflictRace, db)
    else if apptKeyExists db slot.doctor_user_id slot.slot_at then (.internalErr, db)
    else
      (.created ⟨db.nextApptId, patientId, slot.doctor_user_id, slot.slot_at, "booked"⟩ slotId,
       { db with
           slots := bookedSlotUpdate db.slots slotId,
           appointments :=
             db.appointments ++ [⟨db.nextApptId, patientId, slot.doctor_user_id, slot.slot_at, "booked"⟩],
           nextApptId := db.nextApptId + 1 })

/-- Outcome of `DELETE /appointments/:id`. -/
inductive CancelResult where
  /-- 404 "Appointment not found" -/
  | notFound
  /-- 403 "Not authorized to cancel this appointment" -/
  | forbidden
  /-- 200 "Appointment canceled" -/
  | canceled
deriving DecidableEq, Repr

/-- The row set of `UPDATE doctor_slots SET is_booked = 0 WHERE
doctor_user_id = ? AND slot_at = ?`: every row matching the composite key
gets its flag cleared. -/
def releaseSlotUpdate (slots : List Slot) (d t : Nat) : List Slot :=
  slots.map (fun s =>
    if s.doctor_user_id == d && s.slot_at == t then { s with is_booked := false } else s)

/-- `DELETE /appointments/:id` (server.js lines 481-520).  Inputs: the
authenticated caller (id, role) and the path parameter appointment id.

1. `SELECT * FROM appointments WHERE id = ?` — 404 if no row.
2. Authorization: caller is the appointment's patient with role 'patient',
   or its doctor with role 'doctor'; otherwise 403.
3. Transaction: `DELETE FROM appointments WHERE id = ?`, then
   `UPDATE doctor_slots SET is_booked = 0 WHERE doctor_user_id = ? AND
   slot_at = ?` using the appointment's denormalized fields (affecting zero
   rows is not an error); commit. -/
def cancelAppointment (db : DB) (userId : Nat) (userRole : String) (apptId : Nat) :
    CancelResult × DB :=
  match db.appointments.find? (fun a => a.id == apptId) with
  | none => (.notFound, db)
  | some appt =>
    if !(appt.patient_user_id == userId && userRole == "patient") &&
       !(appt.doctor_user_id == userId && userRole == "doctor") then (.forbidden, db)
    else
      (.canceled,
       { db with
           appointments := db.appointments.filter (fun a => a.id != apptId),
           slots := releaseSlotUpdate db.slots appt.doctor_user_id appt.scheduled_at })

/-- Whether a `doctor_slots` row with the composite key `(d, t)` exists. -/
def hasSlotKey (db : DB) (d t : Nat) : Bool :=
  db.slots.any (fun s => s.doctor_user_id == d && s.slot_at == t)

/-- One row of the bulk `INSERT IGNORE`: the accumulator is the database so
far together with the running count of rows actually inserted
(`affectedRows`).  A row whose `(doctor_user_id, slot_at)` composite is
already present is silently skipped; otherwise it is appended with the next
AUTO_INCREMENT id and `is_booked = 0`. -/
def publishStep (doctorId : Nat) (acc : DB × Nat) (t : Nat) : DB × Nat :=
  if hasSlotKey acc.1 doctorId t then acc
  else
    ({ acc.1 with
        slots := acc.1.slots ++ [⟨acc.1.nextSlotId, doctorId, t, false⟩],
        nextSlotId := acc.1.nextSlotId + 1 },
     acc.2 + 1)

/-- `POST /doctor/slots` (server.js lines 426-447), after the request-layer
timestamp-format validation.  `INSERT IGNORE INTO doctor_slots
(doctor_user_id, slot_at) VALUES ?` with the authenticated doctor's id:
rows whose `(doctor_user_id, slot_at)` composite already exists — per
`UNIQUE KEY ux_doctor_slot (doctor_user_id, slot_at)` of schema.sql in
`src/unnamed/part_000` — are silently skipped, including duplicates within
the batch itself.  The route responds `{ inserted: result.affectedRows }`,
the number of rows actually inserted. -/
def publishSlots (db : DB) (doctorId : Nat) (times : List Nat) : Nat × DB :=
  ((times.foldl (publishStep doctorId) (db, 0)).2,
   (times.foldl (publishStep doctorId) (db, 0)).1)

/-- Outcome of `DELETE /doctor/slots/:id`. -/
inductive DeleteSlotResult where
  /-- 404 "Slot not found" -/
  | notFound
  /-- 409 "Cannot delete a booked slot" -/
  | conflictBooked
  /-- 200 "Slot deleted" -/
  | deleted
deriving DecidableEq, Repr

/-- `DELETE /doctor/slots/:id` (server.js lines 464-478).  Inputs: the
authenticated doctor id and the path parameter slot id.
`SELECT * FROM doctor_slots WHERE id = ? AND doctor_user_id = ?` — 404 if no
row; 409 if `slot.is_booked`; otherwise `DELETE FROM doctor_slots WHERE
id = ?`. -/
def deleteSlot (db : DB) (doctorId slotId : Nat) : DeleteSlotResult × DB :=
  match db.slots.find? (fun s => s.id == slotId && s.doctor_user_id == doctorId) with
  | none => (.notFound, db)
  | some slot =>
    if slot.is_booked then (.conflictBooked, db)
    else (.deleted, { db with slots := db.slots.filter (fun s => s.id != slotId) })

/-- `GET /doctors/:username/slots` (server.js lines 411-418), after the
username has been resolved to a doctor id: `SELECT id AS slot_id, slot_at,
is_booked FROM doctor_slots WHERE doctor_user_id = ? AND slot_at >= NOW()
ORDER BY slot_at ASC`.  The ORDER BY only permutes the rows; membership is
what the claims are about, so the list is kept in table order. -/
def listFutureSlots (db : DB) (doctorId now : Nat) : List Slot :=
  db.slots.filter (fun s => s.doctor_user_id == doctorId && now ≤ s.slot_at)

/-- Number of rows of an `appointments` row list carrying the composite key
`(d, t)`. -/
def apptCountOn (l : List Appointment) (d t : Nat) : Nat :=
  (l.filter (fun a => a.doctor_user_id == d && a.scheduled_at == t)).length

/-- Number of `appointments` rows carrying the composite key `(d, t)`. -/
def apptCountFor (db : DB) (d t : Nat) : Nat :=
  apptCountOn db.appointments d t

/-- The booking invariant (spec §4.3): a slot has `is_booked = true` iff
exactly one appointment row carries its `(doctor_user_id, slot_at)` key. -/
def BookingInv (db : DB) : Prop :=
  ∀ s ∈ db.slots, s.is_booked = true ↔ apptCountFor db s.doctor_user_id s.slot_at = 1

/-- The slot's composite key. -/
def slotKey (s : Slot) : Nat × Nat := (s.doctor_user_id, s.slot_at)

/-- The appointment's composite key. -/
def apptKey (a : Appointment) : Nat × Nat := (a.doctor_user_id, a.scheduled_at)

/-- Schema well-formedness, from schema.sql in `src/unnamed/part_000`:
the two PRIMARY KEYs, `UNIQUE KEY ux_doctor_slot (doctor_user_id, slot_at)`,
`UNIQUE KEY ux_appt_doctor_time (doctor_user_id, scheduled_at)`,
AUTO_INCREMENT counters dominating existing ids, and the foreign key
`doctor_slots.doctor_user_id REFERENCES users(id)` restricted to
doctor-role users (slots are only created through `POST /doctor/slots`
under a doctor token). -/
def WF (db : DB) : Prop :=
  (db.slots.map Slot.id).Nodup ∧
  (db.slots.map slotKey).Nodup ∧
  (db.appointments.map Appointment.id).Nodup ∧
  (db.appointments.map apptKey).Nodup ∧
  (∀ a ∈ db.appointments, a.id < db.nextApptId) ∧
  (∀ s ∈ db.slots, s.id < db.nextSlotId) ∧
  (∀ s ∈ db.slots, s.doctor_user_id ∈ db.doctors)

instance (db : DB) : Decidable (BookingInv db) := by
  unfold BookingInv
  infer_instance

instance (db : DB) : Decidable (WF db) := by
  unfold WF
  infer_instance

/-- A claim or release request, as fired at the two transactional routes. -/
inductive Op where
  | claim (patientId slotId : Nat)
  | release (userId : Nat) (role : String) (apptId : Nat)
deriving DecidableEq, Repr

/-- The state reached after one request (the result is discarded). -/
def applyOp (db : DB) : Op → DB
  | .claim p s => (bookAppointment db p s).2
  | .release u r a => (cancelAppointment db u r a).2

/-- The state reached after a sequence of claim/release requests. -/
def runOps (db : DB) (ops : List Op) : DB := ops.foldl applyOp db

/-! ### Generic list lemmas -/

theorem find?_eq_of_unique {α : Type _} {l : List α} {p : α → Bool} {a : α}
    (ha : a ∈ l) (hpa : p a = true) (huniq : ∀ x ∈ l, p x = true → x = a) :
    l.find? p = some a := by
  induction l with
  | nil => cases ha
  | cons b t ih =>
    by_cases hb : p b
    · have hba : b = a := huniq b (List.mem_cons_self b t) hb
      rw [List.find?_cons_of_pos _ hb, hba]
    · rw [List.find?_cons_of_neg _ (by simpa using hb)]
      have ha' : a ∈ t := by
        rcases List.mem_cons.mp ha with h | h
        · exact absurd (h ▸ hpa) (by simpa using hb)
        · exact h
      exact ih ha' (fun x hx hpx => huniq x (List.mem_cons_of_mem _ hx) hpx)

theorem nodup_concat_of {α : Type _} {l : List α} {x : α}
    (hl : l.Nodup) (hx : x ∉ l) : (l ++ [x]).Nodup := by
  rw [List.nodup_append]
  refine ⟨hl, List.nodup_singleton x, ?_⟩
  intro a ha hax
  rw [List.mem_singleton] at hax
  exact hx (hax ▸ ha)

theorem filter_filter_of_imp {α : Type _} {l : List α} {p q : α → Bool}
    (h : ∀ a ∈ l, p a = true → q a = true) : (l.filter q).filter p = l.filter p := by
  rw [List.filter_filter]
  refine List.filter_congr ?_
  intro a ha
  by_cases hp : p a
  · simp [hp, h a ha hp]
  · simp [hp]

theorem one_le_length_filter_of_mem {α : Type _} {p : α → Bool} {l : List α} {a : α}
    (ha : a ∈ l) (hpa : p a = true) : 1 ≤ (l.filter p).length := by
  have : a ∈ l.filter p := List.mem_filter.mpr ⟨ha, hpa⟩
  have := List.length_pos.mpr (List.ne_nil_of_mem this)
  omega

/-- In a list whose `(f, g)`-keys are pairwise distinct, at most one element
matches a given key. -/
theorem length_filter_two_le_one {α : Type _} {f g : α → Nat} {l : List α}
    (h : (l.map (fun x => (f x, g x))).Nodup) (d t : Nat) :
    (l.filter (fun x => f x == d && g x == t)).length ≤ 1 := by
  induction l with
  | nil => simp
  | cons a l ih =>
    rw [List.map_cons, List.nodup_cons] at h
    obtain ⟨hna, hnd⟩ := h
    by_cases hp : (f a == d && g a == t) = true
    · have hfa : f a = d ∧ g a = t := by simpa using hp
      have hrest : l.filter (fun x => f x == d && g x == t) = [] := by
        rw [List.filter_eq_nil_iff]
        intro x hx hpx
        have hfx : f x = d ∧ g x = t := by simpa using hpx
        exact hna (List.mem_map.mpr ⟨x, hx, by rw [hfx.1, hfx.2, hfa.1, hfa.2]⟩)
      simp [List.filter_cons, hp, hrest]
    · simp only [List.filter_cons, hp, if_false]
      exact ih hnd

/-! ### Lemmas about the appointment-key count -/

theorem apptCountOn_append (l1 l2 : List Appointment) (d t : Nat) :
    apptCountOn (l1 ++ l2) d t = apptCountOn l1 d t + apptCountOn l2 d t := by
  unfold apptCountOn
  rw [List.filter_append, List.length_append]

theorem apptCountOn_singleton (a : Appointment) (d t : Nat) :
    apptCountOn [a] d t = if a.doctor_user_id = d ∧ a.scheduled_at = t then 1 else 0 := by
  by_cases h1 : a.doctor_user_id = d <;> by_cases h2 : a.scheduled_at = t <;>
    simp [apptCountOn, List.filter_cons, h1, h2]

theorem apptCountOn_le_one {l : List Appointment} (h : (l.map apptKey).Nodup) (d t : Nat) :
    apptCountOn l d t ≤ 1 := by
  have h' : (l.map (fun a => (a.doctor_user_id, a.scheduled_at))).Nodup := by
    simpa [apptKey] using h
  exact length_filter_two_le_one h' d t

theorem apptCountOn_eq_zero_iff {l : List Appointment} {d t : Nat} :
    apptCountOn l d t = 0 ↔ ∀ a ∈ l, ¬(a.doctor_user_id = d ∧ a.scheduled_at = t) := by
  unfold apptCountOn
  rw [List.length_eq_zero, List.filter_eq_nil_iff]
  constructor <;> intro h a ha <;> have := h a ha <;> simpa using this

theorem apptCountOn_eq_one_of_mem {l : List Appointment} {a : Appointment} {d t : Nat}
    (h : (l.map apptKey).Nodup) (ha : a ∈ l)
    (hd : a.doctor_user_id = d) (ht : a.scheduled_at = t) :
    apptCountOn l d t = 1 := by
  have hle := apptCountOn_le_one h d t
  have hge : 1 ≤ apptCountOn l d t :=
    one_le_length_filter_of_mem ha (by simp [hd, ht])
  omega

theorem apptKeyExists_eq_false_iff {db : DB} {d t : Nat} :
    apptKeyExists db d t = false ↔ apptCountFor db d t = 0 := by
  unfold apptKeyExists apptCountFor
  rw [apptCountOn_eq_zero_iff, List.any_eq_false]
  constructor <;> intro h a ha <;> have := h a ha <;> simpa using this

theorem bookedSlotUpdate_map_id (slots : List Slot) (i : Nat) :
    (bookedSlotUpdate slots i).map Slot.id = slots.map Slot.id := by
  unfold bookedSlotUpdate
  rw [List.map_map]
  refine List.map_congr_left ?_
  intro s _
  by_cases h : (s.id == i && !s.is_booked) = true <;> simp [Function.comp, h]

theorem bookedSlotUpdate_map_key (slots : List Slot) (i : Nat) :
    (bookedSlotUpdate slots i).map slotKey = slots.map slotKey := by
  unfold bookedSlotUpdate
  rw [List.map_map]
  refine List.map_congr_left ?_
  intro s _
  by_cases h : (s.id == i && !s.is_booked) = true <;> simp [Function.comp, slotKey, h]

theorem releaseSlotUpdate_map_id (slots : List Slot) (d t : Nat) :
    (releaseSlotUpdate slots d t).map Slot.id = slots.map Slot.id := by
  unfold releaseSlotUpdate
  rw [List.map_map]
  refine List.map_congr_left ?_
  intro s _
  by_cases h : (s.doctor_user_id == d && s.slot_at == t) = true <;> simp [Function.comp, h]

theorem releaseSlotUpdate_map_key (slots : List Slot) (d t : Nat) :
    (releaseSlotUpdate slots d t).map slotKey = slots.map slotKey := by
  unfold releaseSlotUpdate
  rw [List.map_map]
  refine List.map_congr_left ?_
  intro s _
  by_cases h : (s.doctor_user_id == d && s.slot_at == t) = true <;>
    simp [Function.comp, slotKey, h]

/-! ### Characterizations of the two transactional routes -/

theorem find_slot_for_booking {db : DB} {s : Slot}
    (hid : (db.slots.map Slot.id).Nodup)
    (hdoc : s.doctor_user_id ∈ db.doctors) (hs : s ∈ db.slots) :
    db.slots.find? (fun x => x.id == s.id && db.doctors.contains x.doctor_user_id) = some s := by
  apply find?_eq_of_unique hs
  · simp [hdoc]
  · intro x hx hpx
    have hxid : x.id = s.id := by
      have hsplit := (Bool.and_eq_true (x.id == s.id) _).mp hpx
      simpa using hsplit.1
    exact List.inj_on_of_nodup_map hid hx hs hxid

/-- The success path of `POST /appointments`: from a state where the slot
exists, belongs to a doctor, is free, and no appointment row carries its
composite key, booking commits: the slot is flagged, the appointment row is
inserted with the slot's denormalized doctor/time, and the 201 body carries
that row plus the slot id. -/
theorem book_success {db : DB} {patientId : Nat} {s : Slot}
    (hid : (db.slots.map Slot.id).Nodup)
    (hdoc : s.doctor_user_id ∈ db.doctors)
    (hs : s ∈ db.slots) (hfree : s.is_booked = false)
    (hnokey : apptKeyExists db s.doctor_user_id s.slot_at = false) :
    bookAppointment db patientId s.id =
      (.created ⟨db.nextApptId, patientId, s.doctor_user_id, s.slot_at, "booked"⟩ s.id,
       { db with
           slots := bookedSlotUpdate db.slots s.id,
           appointments :=
             db.appointments ++ [⟨db.nextApptId, patientId, s.doctor_user_id, s.slot_at, "booked"⟩],
           nextApptId := db.nextApptId + 1 }) := by
  have hfind := find_slot_for_booking hid hdoc hs
  have haff : 1 ≤ bookedSlotAffected db.slots s.id :=
    one_le_length_filter_of_mem hs (by simp [hfree])
  have haff' : (bookedSlotAffected db.slots s.id == 0) = false := by
    simp only [beq_eq_false_iff_ne, ne_eq]
    omega
  unfold bookAppointment
  rw [hfind]
  simp [hfree, haff', hnokey]

theorem find_appt_by_id {db : DB} {a : Appointment} {apptId : Nat}
    (hids : (db.appointments.map Appointment.id).Nodup)
    (ha : a ∈ db.appointments) (hid : a.id = apptId) :
    db.appointments.find? (fun x => x.id == apptId) = some a := by
  apply find?_eq_of_unique ha
  · simp [hid]
  · intro x hx hpx
    have hxid : x.id = apptId := by simpa using hpx
    exact List.inj_on_of_nodup_map hids hx ha (by rw [hxid, hid])

/-- The success path of `DELETE /appointments/:id`: with the appointment
present and the caller authorized, the row is deleted and every slot
matching the denormalized composite key is freed. -/
theorem cancel_success {db : DB} {userId apptId : Nat} {role : String} {a : Appointment}
    (hids : (db.appointments.map Appointment.id).Nodup)
    (ha : a ∈ db.appointments) (hid : a.id = apptId)
    (hauth : (a.patient_user_id = userId ∧ role = "patient") ∨
             (a.doctor_user_id = userId ∧ role = "doctor")) :
    cancelAppointment db userId role apptId =
      (.canceled,
       { db with
           appointments := db.appointments.filter (fun x => x.id != apptId),
           slots := releaseSlotUpdate db.slots a.doctor_user_id a.scheduled_at }) := by
  have hfind := find_appt_by_id hids ha hid
  unfold cancelAppointment
  rw [hfind]
  rcases hauth with ⟨h1, h2⟩ | ⟨h1, h2⟩ <;> simp [h1, h2]

/-- Every run of `POST /appointments` either leaves the database unchanged
(404, both 409s, or the rolled-back 500) or commits the booking of some
free slot whose id matched and whose composite key had no appointment row. -/
theorem book_state_cases (db : DB) (p sid : Nat) :
    (bookAppointment db p sid).2 = db ∨
    ∃ s ∈ db.slots, s.id = sid ∧ s.is_booked = false ∧
      apptKeyExists db s.doctor_user_id s.slot_at = false ∧
      (bookAppointment db p sid).2 =
        { db with
            slots := bookedSlotUpdate db.slots sid,
            appointments :=
              db.appointments ++ [⟨db.nextApptId, p, s.doctor_user_id, s.slot_at, "booked"⟩],
            nextApptId := db.nextApptId + 1 } := by
  unfold bookAppointment
  cases hfind : db.slots.find? (fun s => s.id == sid && db.doctors.contains s.doctor_user_id) with
  | none => left; rfl
  | some s =>
    have hs : s ∈ db.slots := List.mem_of_find?_eq_some hfind
    have hp := List.find?_some hfind
    have hsid : s.id = sid := by
      have hsplit := (Bool.and_eq_true (s.id == sid) _).mp hp
      simpa using hsplit.1
    by_cases hb : s.is_booked
    · left; simp [hb]
    · by_cases haff : (bookedSlotAffected db.slots sid == 0) = true
      · left; simp [hb, haff]
      · by_cases hkey : apptKeyExists db s.doctor_user_id s.slot_at = true
        · left; simp [hb, haff, hkey]
        · right
          refine ⟨s, hs, hsid, by simpa using hb, by simpa using hkey, ?_⟩
          simp [hb, haff, hkey]

/-- Every run of `DELETE /appointments/:id` either leaves the database
unchanged (404 or 403) or commits the cancellation of the appointment row
found by id. -/
theorem cancel_state_cases (db : DB) (u : Nat) (role : String) (apptId : Nat) :
    (cancelAppointment db u role apptId).2 = db ∨
    ∃ a ∈ db.appointments, a.id = apptId ∧
      (cancelAppointment db u role apptId).2 =
        { db with
            appointments := db.appointments.filter (fun x => x.id != apptId),
            slots := releaseSlotUpdate db.slots a.doctor_user_id a.scheduled_at } := by
  unfold cancelAppointment
  cases hfind : db.appointments.find? (fun a => a.id == apptId) with
  | none => left; rfl
  | some a =>
    have ha : a ∈ db.appointments := List.mem_of_find?_eq_some hfind
    have hp := List.find?_some hfind
    have haid : a.id = apptId := by simpa using hp
    by_cases hauth :
        (!(a.patient_user_id == u && role == "patient") &&
         !(a.doctor_user_id == u && role == "doctor")) = true
    · left
      have hc : (¬a.patient_user_id = u ∨ ¬role = "patient") ∧
          (¬a.doctor_user_id = u ∨ ¬role = "doctor") := by
        simpa [not_and_or] using hauth
      simp [hc]
    · right
      refine ⟨a, ha, haid, ?_⟩
      have hc : ¬((¬a.patient_user_id = u ∨ ¬role = "patient") ∧
          (¬a.doctor_user_id = u ∨ ¬role = "doctor")) := by
        simpa [not_and_or] using hauth
      simp [hc]

/-! ### Preservation of schema well-formedness and the booking invariant -/


theorem book_commit_WF {db : DB} {p : Nat} {s : Slot}
    (hWF : WF db) (_hs : s ∈ db.slots)
    (hnokey : apptKeyExists db s.doctor_user_id s.slot_at = false) :
    WF { db with
           slots := bookedSlotUpdate db.slots s.id,
           appointments :=
             db.appointments ++ [⟨db.nextApptId, p, s.doctor_user_id, s.slot_at, "booked"⟩],
           nextApptId := db.nextApptId + 1 } := by
  obtain ⟨h1, h2, h3, h4, h5, h6, h7⟩ := hWF
  refine ⟨?_, ?_, ?_, ?_, ?_, ?_, ?_⟩
  · show ((bookedSlotUpdate db.slots s.id).map Slot.id).Nodup
    rw [bookedSlotUpdate_map_id]; exact h1
  · show ((bookedSlotUpdate db.slots s.id).map slotKey).Nodup
    rw [bookedSlotUpdate_map_key]; exact h2
  · show ((db.appointments ++
      [(⟨db.nextApptId, p, s.doctor_user_id, s.slot_at, "booked"⟩ : Appointment)]).map
        Appointment.id).Nodup
    rw [List.map_append]
    refine nodup_concat_of h3 ?_
    intro hmem
    rcases List.mem_map.mp hmem with ⟨a, ha, haid⟩
    have := h5 a ha
    simp only at haid
    omega
  · show ((db.appointments ++
      [(⟨db.nextApptId, p, s.doctor_user_id, s.slot_at, "booked"⟩ : Appointment)]).map
        apptKey).Nodup
    rw [List.map_append]
    refine nodup_concat_of h4 ?_
    intro hmem
    rcases List.mem_map.mp hmem with ⟨a, ha, hak⟩
    have hzero := apptKeyExists_eq_false_iff.mp hnokey
    have hnone := apptCountOn_eq_zero_iff.mp hzero a ha
    have hd : a.doctor_user_id = s.doctor_user_id ∧ a.scheduled_at = s.slot_at := by
      constructor
      · simpa [apptKey] using congrArg Prod.fst hak
      · simpa [apptKey] using congrArg Prod.snd hak
    exact hnone hd
  · intro a ha
    show a.id < db.nextApptId + 1
    have ha' : a ∈ db.appointments ++
        [(⟨db.nextApptId, p, s.doctor_user_id, s.slot_at, "booked"⟩ : Appointment)] := ha
    rcases List.mem_append.mp ha' with h | h
    · have := h5 a h
      omega
    · rw [List.mem_singleton] at h
      subst h
      show db.nextApptId < db.nextApptId + 1
      omega
  · intro x hx
    show x.id < db.nextSlotId
    have hx' : x ∈ db.slots.map
        (fun y => if y.id == s.id && !y.is_booked then { y with is_booked := true } else y) := hx
    rcases List.mem_map.mp hx' with ⟨y, hy, hfy⟩
    have := h6 y hy
    by_cases hc : (y.id == s.id && !y.is_booked) = true
    · rw [if_pos hc] at hfy
      rw [← hfy]
      exact this
    · rw [if_neg hc] at hfy
      rw [← hfy]
      exact this
  · intro x hx
    show x.doctor_user_id ∈ db.doctors
    have hx' : x ∈ db.slots.map
        (fun y => if y.id == s.id && !y.is_booked then { y with is_booked := true } else y) := hx
    rcases List.mem_map.mp hx' with ⟨y, hy, hfy⟩
    have := h7 y hy
    by_cases hc : (y.id == s.id && !y.is_booked) = true
    · rw [if_pos hc] at hfy
      rw [← hfy]
      exact this
    · rw [if_neg hc] at hfy
      rw [← hfy]
      exact this

theorem book_commit_inv {db : DB} {p : Nat} {s : Slot}
    (hWF : WF db) (hInv : BookingInv db) (hs : s ∈ db.slots) (hfree : s.is_booked = false)
    (hnokey : apptKeyExists db s.doctor_user_id s.slot_at = false) :
    BookingInv { db with
           slots := bookedSlotUpdate db.slots s.id,
           appointments :=
             db.appointments ++ [⟨db.nextApptId, p, s.doctor_user_id, s.slot_at, "booked"⟩],
           nextApptId := db.nextApptId + 1 } := by
  obtain ⟨h1, h2, h3, h4, h5, h6, h7⟩ := hWF
  intro s' hs'
  have hcount0 : apptCountOn db.appointments s.doctor_user_id s.slot_at = 0 :=
    apptKeyExists_eq_false_iff.mp hnokey
  have hcnt : ∀ d t : Nat,
      apptCountFor { db with
           slots := bookedSlotUpdate db.slots s.id,
           appointments :=
             db.appointments ++ [⟨db.nextApptId, p, s.doctor_user_id, s.slot_at, "booked"⟩],
           nextApptId := db.nextApptId + 1 } d t =
        apptCountOn db.appointments d t +
          (if s.doctor_user_id = d ∧ s.slot_at = t then 1 else 0) := by
    intro d t
    show apptCountOn (db.appointments ++
      [(⟨db.nextApptId, p, s.doctor_user_id, s.slot_at, "booked"⟩ : Appointment)]) d t = _
    rw [apptCountOn_append, apptCountOn_singleton]
  have hs'' : s' ∈ db.slots.map
      (fun y => if y.id == s.id && !y.is_booked then { y with is_booked := true } else y) := hs'
  rcases List.mem_map.mp hs'' with ⟨x, hx, hfx⟩
  by_cases hc : (x.id == s.id && !x.is_booked) = true
  · have hxid : x.id = s.id := by
      have hsplit := (Bool.and_eq_true (x.id == s.id) _).mp hc
      simpa using hsplit.1
    have hxs : x = s := List.inj_on_of_nodup_map h1 hx hs hxid
    rw [if_pos hc] at hfx
    rw [← hfx, hxs]
    rw [show ({ s with is_booked := true } : Slot).doctor_user_id = s.doctor_user_id from rfl,
        show ({ s with is_booked := true } : Slot).slot_at = s.slot_at from rfl,
        hcnt s.doctor_user_id s.slot_at]
    simp [hcount0]
  · rw [if_neg hc] at hfx
    rw [← hfx]
    have hxs : x ≠ s := by
      intro h
      subst h
      simp [hfree] at hc
    have hkne : ¬(x.doctor_user_id = s.doctor_user_id ∧ x.slot_at = s.slot_at) := by
      intro hand
      exact hxs (List.inj_on_of_nodup_map h2 hx hs (by simp [slotKey, hand.1, hand.2]))
    rw [hcnt x.doctor_user_id x.slot_at]
    rw [if_neg (fun hand => hkne ⟨hand.1.symm, hand.2.symm⟩)]
    exact hInv x hx

theorem cancel_commit_WF {db : DB} {a : Appointment}
    (hWF : WF db) :
    WF { db with
           appointments := db.appointments.filter (fun x => x.id != a.id),
           slots := releaseSlotUpdate db.slots a.doctor_user_id a.scheduled_at } := by
  obtain ⟨h1, h2, h3, h4, h5, h6, h7⟩ := hWF
  refine ⟨?_, ?_, ?_, ?_, ?_, ?_, ?_⟩
  · show ((releaseSlotUpdate db.slots a.doctor_user_id a.scheduled_at).map Slot.id).Nodup
    rw [releaseSlotUpdate_map_id]; exact h1
  · show ((releaseSlotUpdate db.slots a.doctor_user_id a.scheduled_at).map slotKey).Nodup
    rw [releaseSlotUpdate_map_key]; exact h2
  · show (((db.appointments.filter (fun x => x.id != a.id)).map Appointment.id)).Nodup
    exact ((List.filter_sublist _).map Appointment.id).nodup h3
  · show (((db.appointments.filter (fun x => x.id != a.id)).map apptKey)).Nodup
    exact ((List.filter_sublist _).map apptKey).nodup h4
  · intro x hx
    show x.id < db.nextApptId
    have hx' : x ∈ db.appointments.filter (fun y => y.id != a.id) := hx
    exact h5 x (List.mem_filter.mp hx').1
  · intro x hx
    show x.id < db.nextSlotId
    have hx' : x ∈ db.slots.map (fun y =>
      if y.doctor_user_id == a.doctor_user_id && y.slot_at == a.scheduled_at
      then { y with is_booked := false } else y) := hx
    rcases List.mem_map.mp hx' with ⟨y, hy, hfy⟩
    have := h6 y hy
    by_cases hc : (y.doctor_user_id == a.doctor_user_id && y.slot_at == a.scheduled_at) = true
    · rw [if_pos hc] at hfy
      rw [← hfy]
      exact this
    · rw [if_neg hc] at hfy
      rw [← hfy]
      exact this
  · intro x hx
    show x.doctor_user_id ∈ db.doctors
    have hx' : x ∈ db.slots.map (fun y =>
      if y.doctor_user_id == a.doctor_user_id && y.slot_at == a.scheduled_at
      then { y with is_booked := false } else y) := hx
    rcases List.mem_map.mp hx' with ⟨y, hy, hfy⟩
    have := h7 y hy
    by_cases hc : (y.doctor_user_id == a.doctor_user_id && y.slot_at == a.scheduled_at) = true
    · rw [if_pos hc] at hfy
      rw [← hfy]
      exact this
    · rw [if_neg hc] at hfy
      rw [← hfy]
      exact this

theorem cancel_commit_inv {db : DB} {a : Appointment}
    (hWF : WF db) (hInv : BookingInv db) (ha : a ∈ db.appointments) :
    BookingInv { db with
           appointments := db.appointments.filter (fun x => x.id != a.id),
           slots := releaseSlotUpdate db.slots a.doctor_user_id a.scheduled_at } := by
  obtain ⟨h1, h2, h3, h4, h5, h6, h7⟩ := hWF
  intro s' hs'
  have hs'' : s' ∈ db.slots.map (fun y =>
      if y.doctor_user_id == a.doctor_user_id && y.slot_at == a.scheduled_at
      then { y with is_booked := false } else y) := hs'
  rcases List.mem_map.mp hs'' with ⟨x, hx, hfx⟩
  by_cases hc : (x.doctor_user_id == a.doctor_user_id && x.slot_at == a.scheduled_at) = true
  · -- the slot matches the cancelled appointment's composite key: it is freed,
    -- and no appointment row with that key survives the delete
    have hkey : x.doctor_user_id = a.doctor_user_id ∧ x.slot_at = a.scheduled_at := by
      simpa using hc
    rw [if_pos hc] at hfx
    rw [← hfx]
    have hzero : apptCountOn (db.appointments.filter (fun y => y.id != a.id))
        x.doctor_user_id x.slot_at = 0 := by
      rw [apptCountOn_eq_zero_iff]
      intro y hy hyk
      have hy' := List.mem_filter.mp hy
      have hya : y = a := by
        refine List.inj_on_of_nodup_map h4 hy'.1 ha ?_
        simp [apptKey, hyk.1, hyk.2, hkey.1, hkey.2]
      have : (y.id != a.id) = true := hy'.2
      rw [hya] at this
      simp at this
    show false = true ↔ apptCountFor _ _ _ = 1
    have hcnt : apptCountFor { db with
           appointments := db.appointments.filter (fun x => x.id != a.id),
           slots := releaseSlotUpdate db.slots a.doctor_user_id a.scheduled_at }
        ({ x with is_booked := false } : Slot).doctor_user_id
        ({ x with is_booked := false } : Slot).slot_at =
        apptCountOn (db.appointments.filter (fun y => y.id != a.id))
          x.doctor_user_id x.slot_at := rfl
    rw [hcnt, hzero]
    simp
  · -- the slot does not match: it is untouched and its key count is unaffected
    have hkne : ¬(x.doctor_user_id = a.doctor_user_id ∧ x.slot_at = a.scheduled_at) := by
      simpa using hc
    rw [if_neg hc] at hfx
    rw [← hfx]
    have hsame : apptCountOn (db.appointments.filter (fun y => y.id != a.id))
        x.doctor_user_id x.slot_at =
        apptCountOn db.appointments x.doctor_user_id x.slot_at := by
      unfold apptCountOn
      rw [filter_filter_of_imp]
      intro y hy hyk
      have hyk' : y.doctor_user_id = x.doctor_user_id ∧ y.scheduled_at = x.slot_at := by
        simpa using hyk
      by_contra hne
      have hya : y = a := by
        have : y.id = a.id := by simpa using hne
        exact List.inj_on_of_nodup_map h3 hy ha this
      exact hkne ⟨by rw [← hya, hyk'.1], by rw [← hya, hyk'.2]⟩
    have hcnt : apptCountFor { db with
           appointments := db.appointments.filter (fun x => x.id != a.id),
           slots := releaseSlotUpdate db.slots a.doctor_user_id a.scheduled_at }
        x.doctor_user_id x.slot_at =
        apptCountOn (db.appointments.filter (fun y => y.id != a.id))
          x.doctor_user_id x.slot_at := rfl
    rw [hcnt, hsame]
    exact hInv x hx

theorem book_preserves (db : DB) (p sid : Nat) (hWF : WF db) (hInv : BookingInv db) :
    WF (bookAppointment db p sid).2 ∧ BookingInv (bookAppointment db p sid).2 := by
  rcases book_state_cases db p sid with h | ⟨s, hs, hsid, hfree, hnokey, h⟩
  · rw [h]; exact ⟨hWF, hInv⟩
  · subst hsid
    rw [h]
    exact ⟨book_commit_WF hWF hs hnokey, book_commit_inv hWF hInv hs hfree hnokey⟩

theorem cancel_preserves (db : DB) (u : Nat) (role : String) (apptId : Nat)
    (hWF : WF db) (hInv : BookingInv db) :
    WF (cancelAppointment db u role apptId).2 ∧
      BookingInv (cancelAppointment db u role apptId).2 := by
  rcases cancel_state_cases db u role apptId with h | ⟨a, ha, hid, h⟩
  · rw [h]; exact ⟨hWF, hInv⟩
  · subst hid
    rw [h]
    exact ⟨cancel_commit_WF hWF, cancel_commit_inv hWF hInv ha⟩

theorem runOps_preserves (ops : List Op) : ∀ db : DB, WF db → BookingInv db →
    WF (runOps db ops) ∧ BookingInv (runOps db ops) := by
  induction ops with
  | nil => exact fun db hWF hInv => ⟨hWF, hInv⟩
  | cons op rest ih =>
    intro db hWF hInv
    have hstep : WF (applyOp db op) ∧ BookingInv (applyOp db op) := by
      cases op with
      | claim p sid => exact book_preserves db p sid hWF hInv
      | release u r i => exact cancel_preserves db u r i hWF hInv
    have hrun : runOps db (op :: rest) = runOps (applyOp db op) rest := rfl
    rw [hrun]
    exact ih (applyOp db op) hstep.1 hstep.2

/-- Claim C1: starting from a schema-well-formed state satisfying the
booking invariant, after any sequence of claim (`POST /appointments`) and
release (`DELETE /appointments/:id`) operations — that is, at every commit
boundary — a slot has `is_booked = true` iff exactly one appointment row
carries its `(doctor_id, scheduled_time)` composite key. -/
theorem booking_invariant_preserved (db : DB) (ops : List Op)
    (hWF : WF db) (hInv : BookingInv db) : BookingInv (runOps db ops) :=
  (runOps_preserves ops db hWF hInv).2

/-- A concrete initial state: one doctor (user 10) with a free slot and a
booked slot, whose booked slot is held by patient 20 through appointment 5. -/
def dbW : DB :=
  ⟨[10], [⟨1, 10, 100, false⟩, ⟨2, 10, 200, true⟩], [⟨5, 20, 10, 200, "booked"⟩], 3, 6⟩

/-- A concrete request sequence: patient 21 claims slot 1, patient 20
cancels appointment 5, patient 22 claims slot 2. -/
def opsW : List Op := [.claim 21 1, .release 20 "patient" 5, .claim 22 2]

theorem booking_invariant_preserved_witness :
    WF dbW ∧ BookingInv dbW ∧ BookingInv (runOps dbW opsW) :=
  ⟨by decide, by decide, booking_invariant_preserved dbW opsW (by decide) (by decide)⟩

/-- Claim C2: the claim operation returns NotFound when no slot with the
given id exists; returns Conflict with the state unchanged when the slot's
`is_booked` flag is already set; and for an existing free slot (in a
well-formed state satisfying the booking invariant) it returns a newly
created appointment carrying the slot's doctor id and scheduled time, with
the slot's `is_booked` flag true afterwards. -/
theorem book_route_spec (db : DB) (p sid : Nat) (hWF : WF db) (hInv : BookingInv db) :
    ((∀ s ∈ db.slots, s.id ≠ sid) → bookAppointment db p sid = (.notFound, db)) ∧
    (∀ s ∈ db.slots, s.id = sid → s.is_booked = true →
        bookAppointment db p sid = (.conflictBooked, db)) ∧
    (∀ s ∈ db.slots, s.id = sid → s.is_booked = false →
        bookAppointment db p sid =
          (.created ⟨db.nextApptId, p, s.doctor_user_id, s.slot_at, "booked"⟩ sid,
           { db with
               slots := bookedSlotUpdate db.slots sid,
               appointments :=
                 db.appointments ++ [⟨db.nextApptId, p, s.doctor_user_id, s.slot_at, "booked"⟩],
               nextApptId := db.nextApptId + 1 }) ∧
        (∀ s' ∈ (bookAppointment db p sid).2.slots, s'.id = sid → s'.is_booked = true)) := by
  obtain ⟨h1, h2, h3, h4, h5, h6, h7⟩ := hWF
  refine ⟨?_, ?_, ?_⟩
  · intro hnone
    have hfind : db.slots.find?
        (fun x => x.id == sid && db.doctors.contains x.doctor_user_id) = none := by
      rw [List.find?_eq_none]
      intro x hx
      simp [hnone x hx]
    unfold bookAppointment
    rw [hfind]
  · intro s hs hsid hbook
    subst hsid
    have hfind := find_slot_for_booking h1 (h7 s hs) hs
    unfold bookAppointment
    rw [hfind]
    simp [hbook]
  · intro s hs hsid hfree
    subst hsid
    have hle := apptCountOn_le_one h4 s.doctor_user_id s.slot_at
    have hne : apptCountOn db.appointments s.doctor_user_id s.slot_at ≠ 1 := by
      intro h
      have hb := (hInv s hs).mpr h
      rw [hfree] at hb
      exact Bool.false_ne_true hb
    have hzero : apptCountOn db.appointments s.doctor_user_id s.slot_at = 0 := by omega
    have hnokey : apptKeyExists db s.doctor_user_id s.slot_at = false :=
      apptKeyExists_eq_false_iff.mpr hzero
    have hsucc := @book_success db p s h1 (h7 s hs) hs hfree hnokey
    refine ⟨hsucc, ?_⟩
    intro s' hs' hid'
    rw [hsucc] at hs'
    have hs'' : s' ∈ db.slots.map
        (fun y => if y.id == s.id && !y.is_booked then { y with is_booked := true } else y) := hs'
    rcases List.mem_map.mp hs'' with ⟨x, hx, hfx⟩
    by_cases hc : (x.id == s.id && !x.is_booked) = true
    · rw [if_pos hc] at hfx
      rw [← hfx]
    · rw [if_neg hc] at hfx
      exfalso
      rw [← hfx] at hid'
      have hxs : x = s := List.inj_on_of_nodup_map h1 hx hs hid'
      exact hc (by simp [hxs, hfree])

theorem book_route_spec_witness :
    bookAppointment dbW 21 99 = (.notFound, dbW) ∧
    bookAppointment dbW 21 2 = (.conflictBooked, dbW) ∧
    (bookAppointment dbW 21 1).1 = .created ⟨6, 21, 10, 100, "booked"⟩ 1 := by
  refine ⟨?_, ?_, ?_⟩
  · exact (book_route_spec dbW 21 99 (by decide) (by decide)).1 (by decide)
  · exact (book_route_spec dbW 21 2 (by decide) (by decide)).2.1
      ⟨2, 10, 200, true⟩ (by decide) rfl rfl
  · have h := (book_route_spec dbW 21 1 (by decide) (by decide)).2.2
      ⟨1, 10, 100, false⟩ (by decide) rfl rfl
    rw [h.1]
    rfl

/-- Claim C4 (amended): during a claim, if the appointment INSERT fails
(the unique `(doctor_id, scheduled_time)` constraint is violated because a
row with that key already exists), the enclosing transaction is aborted —
the slot's `is_booked` flag is rolled back to free, the state is unchanged —
but the operation fails with the 500 Internal error ("Failed to book
slot"), not with Conflict. -/
theorem book_insert_failure_internal (db : DB) (p : Nat) (s : Slot)
    (hWF : WF db) (hs : s ∈ db.slots) (hfree : s.is_booked = false)
    (hkey : apptKeyExists db s.doctor_user_id s.slot_at = true) :
    bookAppointment db p s.id = (.internalErr, db) := by
  obtain ⟨h1, _, _, _, _, _, h7⟩ := hWF
  have hfind := find_slot_for_booking h1 (h7 s hs) hs
  have haff : 1 ≤ bookedSlotAffected db.slots s.id :=
    one_le_length_filter_of_mem hs (by simp [hfree])
  have haff' : (bookedSlotAffected db.slots s.id == 0) = false := by
    simp only [beq_eq_false_iff_ne, ne_eq]
    omega
  unfold bookAppointment
  rw [hfind]
  simp [hfree, haff', hkey]

/-- A drifted state named by the spec itself: slot 1 of doctor 10 is free,
yet an appointment row for `(10, 100)` already exists. -/
def dbDrift : DB :=
  ⟨[10], [⟨1, 10, 100, false⟩], [⟨5, 20, 10, 100, "booked"⟩], 2, 6⟩

/-- Claim C4 counterexample: on the drifted state the INSERT fails, the
transaction is rolled back (state unchanged), but the route answers the
500 Internal error, not a 409 Conflict as the claim states. -/
theorem book_insert_failure_cex :
    bookAppointment dbDrift 21 1 = (.internalErr, dbDrift) ∧
    BookResult.internalErr ≠ BookResult.conflictBooked ∧
    BookResult.internalErr ≠ BookResult.conflictRace := by
  refine ⟨by decide, by decide, by decide⟩

theorem book_insert_failure_internal_witness :
    WF dbDrift ∧ bookAppointment dbDrift 21 1 = (.internalErr, dbDrift) :=
  ⟨by decide,
   book_insert_failure_internal dbDrift 21 ⟨1, 10, 100, false⟩
     (by decide) (by decide) rfl (by decide)⟩

/-- Claim C6: cancel returns NotFound when no appointment with the id
exists, and returns Forbidden — leaving the state unchanged — for every
caller who is neither the appointment's patient (with role `patient`) nor
its doctor (with role `doctor`). -/
theorem cancel_auth_errors (db : DB) (u apptId : Nat) (role : String) (hWF : WF db) :
    ((∀ a ∈ db.appointments, a.id ≠ apptId) →
        cancelAppointment db u role apptId = (.notFound, db)) ∧
    (∀ a ∈ db.appointments, a.id = apptId →
        ¬(a.patient_user_id = u ∧ role = "patient") →
        ¬(a.doctor_user_id = u ∧ role = "doctor") →
        cancelAppointment db u role apptId = (.forbidden, db)) := by
  obtain ⟨_, _, h3, _, _, _, _⟩ := hWF
  refine ⟨?_, ?_⟩
  · intro hnone
    have hfind : db.appointments.find? (fun a => a.id == apptId) = none := by
      rw [List.find?_eq_none]
      intro x hx
      simp [hnone x hx]
    unfold cancelAppointment
    rw [hfind]
  · intro a ha hid hnp hnd
    have hfind := find_appt_by_id h3 ha hid
    have hb1 : (a.patient_user_id == u && role == "patient") = false := by
      cases hEq : (a.patient_user_id == u && role == "patient") with
      | false => rfl
      | true => exact absurd (by simpa using hEq) hnp
    have hb2 : (a.doctor_user_id == u && role == "doctor") = false := by
      cases hEq : (a.doctor_user_id == u && role == "doctor") with
      | false => rfl
      | true => exact absurd (by simpa using hEq) hnd
    unfold cancelAppointment
    rw [hfind]
    simp [hb1, hb2]

theorem cancel_auth_errors_witness :
    cancelAppointment dbW 20 "patient" 99 = (.notFound, dbW) ∧
    cancelAppointment dbW 21 "patient" 5 = (.forbidden, dbW) ∧
    cancelAppointment dbW 20 "doctor" 5 = (.forbidden, dbW) := by
  refine ⟨?_, ?_, ?_⟩
  · exact (cancel_auth_errors dbW 20 99 "patient" (by decide)).1 (by decide)
  · exact (cancel_auth_errors dbW 21 5 "patient" (by decide)).2
      ⟨5, 20, 10, 200, "booked"⟩ (by decide) rfl (by decide) (by decide)
  · exact (cancel_auth_errors dbW 20 5 "doctor" (by decide)).2
      ⟨5, 20, 10, 200, "booked"⟩ (by decide) rfl (by decide) (by decide)

/-- Claim C8: deleting a booked slot fails with Conflict and leaves the
state unchanged; a free slot owned by the caller is removed; a slot that
does not exist or is not owned by the caller yields NotFound. -/
theorem delete_slot_spec (db : DB) (doctorId slotId : Nat) (hWF : WF db) :
    ((∀ s ∈ db.slots, ¬(s.id = slotId ∧ s.doctor_user_id = doctorId)) →
        deleteSlot db doctorId slotId = (.notFound, db)) ∧
    (∀ s ∈ db.slots, s.id = slotId → s.doctor_user_id = doctorId → s.is_booked = true →
        deleteSlot db doctorId slotId = (.conflictBooked, db)) ∧
    (∀ s ∈ db.slots, s.id = slotId → s.doctor_user_id = doctorId → s.is_booked = false →
        deleteSlot db doctorId slotId =
          (.deleted, { db with slots := db.slots.filter (fun x => x.id != slotId) }) ∧
        s ∉ (deleteSlot db doctorId slotId).2.slots) := by
  obtain ⟨h1, _, _, _, _, _, _⟩ := hWF
  have hfind : ∀ s ∈ db.slots, s.id = slotId → s.doctor_user_id = doctorId →
      db.slots.find? (fun x => x.id == slotId && x.doctor_user_id == doctorId) = some s := by
    intro s hs hsid hdoc
    apply find?_eq_of_unique hs (by simp [hsid, hdoc])
    intro x hx hpx
    have hxid : x.id = slotId := by
      have hsplit := (Bool.and_eq_true (x.id == slotId) _).mp hpx
      simpa using hsplit.1
    exact List.inj_on_of_nodup_map h1 hx hs (by rw [hxid, hsid])
  refine ⟨?_, ?_, ?_⟩
  · intro hnone
    have hfind0 : db.slots.find?
        (fun x => x.id == slotId && x.doctor_user_id == doctorId) = none := by
      rw [List.find?_eq_none]
      intro x hx
      simp only [Bool.and_eq_true, beq_iff_eq]
      exact hnone x hx
    unfold deleteSlot
    rw [hfind0]
  · intro s hs hsid hdoc hbook
    unfold deleteSlot
    rw [hfind s hs hsid hdoc]
    simp [hbook]
  · intro s hs hsid hdoc hfree
    have heq : deleteSlot db doctorId slotId =
        (.deleted, { db with slots := db.slots.filter (fun x => x.id != slotId) }) := by
      unfold deleteSlot
      rw [hfind s hs hsid hdoc]
      simp [hfree]
    refine ⟨heq, ?_⟩
    rw [heq]
    intro hmem
    have hmem' : s ∈ db.slots.filter (fun x => x.id != slotId) := hmem
    have := (List.mem_filter.mp hmem').2
    simp [hsid] at this

theorem delete_slot_spec_witness :
    deleteSlot dbW 10 99 = (.notFound, dbW) ∧
    deleteSlot dbW 10 2 = (.conflictBooked, dbW) ∧
    deleteSlot dbW 10 1 =
      (.deleted, { dbW with slots := dbW.slots.filter (fun x => x.id != 1) }) ∧
    (⟨1, 10, 100, false⟩ : Slot) ∉ (deleteSlot dbW 10 1).2.slots := by
  refine ⟨?_, ?_, ?_⟩
  · exact (delete_slot_spec dbW 10 99 (by decide)).1 (by decide)
  · exact (delete_slot_spec dbW 10 2 (by decide)).2.1
      ⟨2, 10, 200, true⟩ (by decide) rfl rfl rfl
  · exact (delete_slot_spec dbW 10 1 (by decide)).2.2
      ⟨1, 10, 100, false⟩ (by decide) rfl rfl rfl

/-- Claim C9: the slot-release step of cancellation is best-effort — when
no slot row matches the appointment's denormalized `(doctor_id,
scheduled_time)` key, cancellation still succeeds, the appointment deletion
commits, the slot table is untouched, and no error is reported. -/
theorem cancel_best_effort_release (db : DB) (u apptId : Nat) (role : String)
    (a : Appointment) (hWF : WF db) (ha : a ∈ db.appointments) (hid : a.id = apptId)
    (hauth : (a.patient_user_id = u ∧ role = "patient") ∨
             (a.doctor_user_id = u ∧ role = "doctor"))
    (hnoslot : ∀ s ∈ db.slots,
      ¬(s.doctor_user_id = a.doctor_user_id ∧ s.slot_at = a.scheduled_at)) :
    cancelAppointment db u role apptId =
      (.canceled,
       { db with appointments := db.appointments.filter (fun x => x.id != apptId) }) ∧
    a ∉ (cancelAppointment db u role apptId).2.appointments := by
  obtain ⟨_, _, h3, _, _, _, _⟩ := hWF
  have hslots : releaseSlotUpdate db.slots a.doctor_user_id a.scheduled_at = db.slots := by
    unfold releaseSlotUpdate
    have hcongr : db.slots.map (fun s =>
        if s.doctor_user_id == a.doctor_user_id && s.slot_at == a.scheduled_at
        then { s with is_booked := false } else s) = db.slots.map id := by
      apply List.map_congr_left
      intro x hx
      rw [if_neg]
      · rfl
      · intro hc
        exact hnoslot x hx (by simpa using hc)
    rw [hcongr, List.map_id]
  have heq : cancelAppointment db u role apptId =
      (.canceled,
       { db with appointments := db.appointments.filter (fun x => x.id != apptId) }) := by
    rw [cancel_success h3 ha hid hauth, hslots]
  refine ⟨heq, ?_⟩
  rw [heq]
  intro hmem
  have hmem' : a ∈ db.appointments.filter (fun x => x.id != apptId) := hmem
  have := (List.mem_filter.mp hmem').2
  simp [hid] at this

/-- A state whose only appointment has no matching slot row (the slot was
deleted after some drift): doctor 10, appointment 5 of patient 20 at time
200, empty slot table. -/
def dbNoSlot : DB := ⟨[10], [], [⟨5, 20, 10, 200, "booked"⟩], 1, 6⟩

theorem cancel_best_effort_release_witness :
    cancelAppointment dbNoSlot 20 "patient" 5 =
      (.canceled, { dbNoSlot with
        appointments := dbNoSlot.appointments.filter (fun x => x.id != 5) }) ∧
    (⟨5, 20, 10, 200, "booked"⟩ : Appointment) ∉
      (cancelAppointment dbNoSlot 20 "patient" 5).2.appointments :=
  cancel_best_effort_release dbNoSlot 20 5 "patient" ⟨5, 20, 10, 200, "booked"⟩
    (by decide) (by decide) rfl (by decide) (by decide)

/-- Claim C10 (implicit): the claim operation never consults the clock —
a free slot whose `scheduled_time` lies in the past is excluded from the
patient-facing future-slots listing (`slot_at >= NOW()`), yet a claim on it
succeeds and creates an appointment. -/
theorem past_slot_claimable (db : DB) (p now : Nat) (s : Slot)
    (hWF : WF db) (hInv : BookingInv db) (hs : s ∈ db.slots)
    (hfree : s.is_booked = false) (hpast : s.slot_at < now) :
    s ∉ listFutureSlots db s.doctor_user_id now ∧
    (bookAppointment db p s.id).1 =
      .created ⟨db.nextApptId, p, s.doctor_user_id, s.slot_at, "booked"⟩ s.id := by
  obtain ⟨h1, h2, h3, h4, h5, h6, h7⟩ := hWF
  constructor
  · intro hmem
    have hmem' : s ∈ db.slots.filter
        (fun x => x.doctor_user_id == s.doctor_user_id && now ≤ x.slot_at) := hmem
    have := (List.mem_filter.mp hmem').2
    simp only [Bool.and_eq_true, decide_eq_true_eq] at this
    omega
  · have hle := apptCountOn_le_one h4 s.doctor_user_id s.slot_at
    have hne : apptCountOn db.appointments s.doctor_user_id s.slot_at ≠ 1 := by
      intro h
      have hb := (hInv s hs).mpr h
      rw [hfree] at hb
      exact Bool.false_ne_true hb
    have hzero : apptCountOn db.appointments s.doctor_user_id s.slot_at = 0 := by omega
    have hnokey : apptKeyExists db s.doctor_user_id s.slot_at = false :=
      apptKeyExists_eq_false_iff.mpr hzero
    rw [@book_success db p s h1 (h7 s hs) hs hfree hnokey]

theorem past_slot_claimable_witness :
    (⟨1, 10, 100, false⟩ : Slot) ∉ listFutureSlots dbW 10 150 ∧
    (bookAppointment dbW 21 1).1 = .created ⟨6, 21, 10, 100, "booked"⟩ 1 :=
  past_slot_claimable dbW 21 150 ⟨1, 10, 100, false⟩
    (by decide) (by decide) (by decide) rfl (by decide)

/-! ### Publish (INSERT IGNORE) lemmas -/

theorem publishStep_skip {d t : Nat} {acc : DB × Nat}
    (h : hasSlotKey acc.1 d t = true) : publishStep d acc t = acc := by
  unfold publishStep
  rw [if_pos h]

theorem publishStep_len (d t : Nat) (acc : DB × Nat) :
    (publishStep d acc t).1.slots.length + acc.2 =
      acc.1.slots.length + (publishStep d acc t).2 := by
  unfold publishStep
  by_cases h : hasSlotKey acc.1 d t = true
  · rw [if_pos h]
  · rw [if_neg h]
    show (acc.1.slots ++ [(⟨acc.1.nextSlotId, d, t, false⟩ : Slot)]).length + acc.2 =
      acc.1.slots.length + (acc.2 + 1)
    rw [List.length_append]
    simp
    omega

theorem publish_foldl_len (ts : List Nat) (d : Nat) :
    ∀ acc : DB × Nat,
      (ts.foldl (publishStep d) acc).1.slots.length + acc.2 =
        acc.1.slots.length + (ts.foldl (publishStep d) acc).2 := by
  induction ts with
  | nil => intro acc; rfl
  | cons t ts ih =>
    intro acc
    rw [List.foldl_cons]
    have hstep := publishStep_len d t acc
    have hrest := ih (publishStep d acc t)
    omega

theorem publishStep_mono {d t0 : Nat} (t : Nat) (acc : DB × Nat)
    (h : hasSlotKey acc.1 d t0 = true) : hasSlotKey (publishStep d acc t).1 d t0 = true := by
  unfold publishStep
  by_cases hc : hasSlotKey acc.1 d t = true
  · rw [if_pos hc]; exact h
  · rw [if_neg hc]
    show (acc.1.slots ++ [(⟨acc.1.nextSlotId, d, t, false⟩ : Slot)]).any
      (fun s => s.doctor_user_id == d && s.slot_at == t0) = true
    rw [List.any_append]
    have h' : acc.1.slots.any (fun s => s.doctor_user_id == d && s.slot_at == t0) = true := h
    rw [h']
    rfl

theorem publish_foldl_mono (ts : List Nat) (d t0 : Nat) :
    ∀ acc : DB × Nat, hasSlotKey acc.1 d t0 = true →
      hasSlotKey ((ts.foldl (publishStep d) acc)).1 d t0 = true := by
  induction ts with
  | nil => intro acc h; exact h
  | cons t ts ih =>
    intro acc h
    rw [List.foldl_cons]
    exact ih (publishStep d acc t) (publishStep_mono t acc h)

theorem publishStep_covers (d t : Nat) (acc : DB × Nat) :
    hasSlotKey (publishStep d acc t).1 d t = true := by
  unfold publishStep
  by_cases hc : hasSlotKey acc.1 d t = true
  · rw [if_pos hc]; exact hc
  · rw [if_neg hc]
    show (acc.1.slots ++ [(⟨acc.1.nextSlotId, d, t, false⟩ : Slot)]).any
      (fun s => s.doctor_user_id == d && s.slot_at == t) = true
    rw [List.any_append]
    simp

theorem publish_foldl_covers (ts : List Nat) (d : Nat) :
    ∀ acc : DB × Nat, ∀ t ∈ ts, hasSlotKey ((ts.foldl (publishStep d) acc)).1 d t = true := by
  induction ts with
  | nil => intro acc t ht; cases ht
  | cons t0 ts ih =>
    intro acc t ht
    rw [List.foldl_cons]
    rcases List.mem_cons.mp ht with h | h
    · subst h
      exact publish_foldl_mono ts d t (publishStep d acc t) (publishStep_covers d t acc)
    · exact ih (publishStep d acc t0) t h

theorem publish_skip_all (ts : List Nat) (d : Nat) :
    ∀ (db : DB) (n : Nat), (∀ t ∈ ts, hasSlotKey db d t = true) →
      ts.foldl (publishStep d) (db, n) = (db, n) := by
  induction ts with
  | nil => intro db n _; rfl
  | cons t ts ih =>
    intro db n hall
    rw [List.foldl_cons, publishStep_skip (hall t (List.mem_cons_self t ts)),
        ih db n (fun x hx => hall x (List.mem_cons_of_mem t hx))]

/-- Claim C7: publishing slots is idempotent — the reported count equals
the number of newly inserted rows, a set of timestamps all of whose
`(doctorId, time)` pairs are already present is silently skipped (count 0,
state unchanged, no error), and republishing the same set right after a
publish inserts nothing and reports 0. -/
theorem publish_idempotent (db : DB) (d : Nat) (ts : List Nat) :
    (publishSlots db d ts).2.slots.length = db.slots.length + (publishSlots db d ts).1 ∧
    ((∀ t ∈ ts, hasSlotKey db d t = true) → publishSlots db d ts = (0, db)) ∧
    publishSlots (publishSlots db d ts).2 d ts = (0, (publishSlots db d ts).2) := by
  refine ⟨?_, ?_, ?_⟩
  · have h : (ts.foldl (publishStep d) (db, 0)).1.slots.length + 0 =
        db.slots.length + (ts.foldl (publishStep d) (db, 0)).2 :=
      publish_foldl_len ts d (db, 0)
    have h1 : (publishSlots db d ts).2 = (ts.foldl (publishStep d) (db, 0)).1 := rfl
    have h2 : (publishSlots db d ts).1 = (ts.foldl (publishStep d) (db, 0)).2 := rfl
    rw [h1, h2]
    omega
  · intro hall
    unfold publishSlots
    rw [publish_skip_all ts d db 0 hall]
  · have hcov : ∀ t ∈ ts, hasSlotKey (publishSlots db d ts).2 d t = true := by
      intro t ht
      exact publish_foldl_covers ts d (db, 0) t ht
    show ((ts.foldl (publishStep d) ((publishSlots db d ts).2, 0)).2,
          (ts.foldl (publishStep d) ((publishSlots db d ts).2, 0)).1) =
      (0, (publishSlots db d ts).2)
    rw [publish_skip_all ts d (publishSlots db d ts).2 0 hcov]

theorem publish_idempotent_witness :
    (publishSlots dbW 10 [100, 300]).2.slots.length =
      dbW.slots.length + (publishSlots dbW 10 [100, 300]).1 ∧
    publishSlots (publishSlots dbW 10 [100, 300]).2 10 [100, 300] =
      (0, (publishSlots dbW 10 [100, 300]).2) ∧
    publishSlots dbW 10 [100, 200] = (0, dbW) :=
  ⟨(publish_idempotent dbW 10 [100, 300]).1,
   (publish_idempotent dbW 10 [100, 300]).2.2,
   (publish_idempotent dbW 10 [100, 200]).2.1 (by decide)⟩

/-- Claim C5: round-trip — claiming a free slot and then cancelling the
resulting appointment (by its patient or its doctor) restores the slot
table exactly, so the slot is free and claimable again: a subsequent claim
by a different patient succeeds and creates a new appointment with the same
`(doctor_id, scheduled_time)`. -/
theorem claim_cancel_reclaim (db : DB) (p1 p2 u : Nat) (role : String) (s : Slot)
    (hWF : WF db) (hInv : BookingInv db) (hs : s ∈ db.slots) (hfree : s.is_booked = false)
    (hcaller : (u = p1 ∧ role = "patient") ∨ (u = s.doctor_user_id ∧ role = "doctor")) :
    ∃ db1 db2 : DB,
      bookAppointment db p1 s.id =
        (.created ⟨db.nextApptId, p1, s.doctor_user_id, s.slot_at, "booked"⟩ s.id, db1) ∧
      cancelAppointment db1 u role db.nextApptId = (.canceled, db2) ∧
      db2.slots = db.slots ∧ s ∈ db2.slots ∧ s.is_booked = false ∧
      bookAppointment db2 p2 s.id =
        (.created ⟨db2.nextApptId, p2, s.doctor_user_id, s.slot_at, "booked"⟩ s.id,
         { db2 with
             slots := bookedSlotUpdate db2.slots s.id,
             appointments :=
               db2.appointments ++ [⟨db2.nextApptId, p2, s.doctor_user_id, s.slot_at, "booked"⟩],
             nextApptId := db2.nextApptId + 1 }) := by
  obtain ⟨h1, h2, h3, h4, h5, h6, h7⟩ := hWF
  have hle := apptCountOn_le_one h4 s.doctor_user_id s.slot_at
  have hne : apptCountOn db.appointments s.doctor_user_id s.slot_at ≠ 1 := by
    intro h
    have hb := (hInv s hs).mpr h
    rw [hfree] at hb
    exact Bool.false_ne_true hb
  have hzero : apptCountOn db.appointments s.doctor_user_id s.slot_at = 0 := by omega
  have hnokey : apptKeyExists db s.doctor_user_id s.slot_at = false :=
    apptKeyExists_eq_false_iff.mpr hzero
  have hbook := @book_success db p1 s h1 (h7 s hs) hs hfree hnokey
  obtain ⟨g1, g2, g3, g4, g5, g6, g7⟩ :=
    @book_commit_WF db p1 s ⟨h1, h2, h3, h4, h5, h6, h7⟩ hs hnokey
  -- booking then releasing restores the slot table exactly
  have hslots : releaseSlotUpdate (bookedSlotUpdate db.slots s.id)
      s.doctor_user_id s.slot_at = db.slots := by
    unfold releaseSlotUpdate bookedSlotUpdate
    rw [List.map_map]
    have hmc : db.slots.map
        ((fun y => if y.doctor_user_id == s.doctor_user_id && y.slot_at == s.slot_at
            then { y with is_booked := false } else y) ∘
         (fun y => if y.id == s.id && !y.is_booked
            then { y with is_booked := true } else y)) = db.slots.map id := by
      apply List.map_congr_left
      intro x hx
      show (fun y => if y.doctor_user_id == s.doctor_user_id && y.slot_at == s.slot_at
            then { y with is_booked := false } else y)
          ((fun y => if y.id == s.id && !y.is_booked
            then { y with is_booked := true } else y) x) = x
      by_cases hxid : x.id = s.id
      · have hxs : x = s := List.inj_on_of_nodup_map h1 hx hs hxid
        subst hxs
        have hback : (⟨x.id, x.doctor_user_id, x.slot_at, false⟩ : Slot) = x := by
          rw [← hfree]
        simp [hfree, hback]
      · have houter : ¬((x.doctor_user_id == s.doctor_user_id &&
            x.slot_at == s.slot_at) = true) := by
          intro hc
          have hpair : x.doctor_user_id = s.doctor_user_id ∧ x.slot_at = s.slot_at := by
            simpa using hc
          have hxs : x = s := List.inj_on_of_nodup_map h2 hx hs
            (by simp [slotKey, hpair.1, hpair.2])
          exact hxid (by rw [hxs])
        have hin : (x.id == s.id && !x.is_booked) = false := by
          simp [hxid]
        show (fun y => if y.doctor_user_id == s.doctor_user_id && y.slot_at == s.slot_at
              then { y with is_booked := false } else y)
            (if x.id == s.id && !x.is_booked
              then ({ x with is_booked := true } : Slot) else x) = x
        rw [hin]
        show (if x.doctor_user_id == s.doctor_user_id && x.slot_at == s.slot_at
              then ({ x with is_booked := false } : Slot) else x) = x
        rw [if_neg houter]
    rw [hmc, List.map_id]
  -- deleting the fresh appointment restores the appointment table exactly
  have happts : (db.appointments ++
      [(⟨db.nextApptId, p1, s.doctor_user_id, s.slot_at, "booked"⟩ : Appointment)]).filter
        (fun x => x.id != db.nextApptId) = db.appointments := by
    rw [List.filter_append]
    have hsing : ([(⟨db.nextApptId, p1, s.doctor_user_id, s.slot_at, "booked"⟩ :
        Appointment)].filter (fun x => x.id != db.nextApptId)) = [] := by
      simp
    have hself : db.appointments.filter (fun x => x.id != db.nextApptId) =
        db.appointments := by
      rw [List.filter_eq_self]
      intro a ha
      have := h5 a ha
      simp only [bne_iff_ne, ne_eq]
      omega
    rw [hsing, hself, List.append_nil]
  refine ⟨_, ⟨db.doctors, db.slots, db.appointments, db.nextSlotId, db.nextApptId + 1⟩,
    hbook, ?_, rfl, hs, hfree, ?_⟩
  · -- the cancellation
    have hA1 : (⟨db.nextApptId, p1, s.doctor_user_id, s.slot_at, "booked"⟩ : Appointment) ∈
        ({ db with
            slots := bookedSlotUpdate db.slots s.id,
            appointments :=
              db.appointments ++ [⟨db.nextApptId, p1, s.doctor_user_id, s.slot_at, "booked"⟩],
            nextApptId := db.nextApptId + 1 } : DB).appointments := by
      show _ ∈ db.appointments ++ _
      exact List.mem_append.mpr (Or.inr (List.mem_singleton.mpr rfl))
    have hauth' : ((⟨db.nextApptId, p1, s.doctor_user_id, s.slot_at, "booked"⟩ :
          Appointment).patient_user_id = u ∧ role = "patient") ∨
        ((⟨db.nextApptId, p1, s.doctor_user_id, s.slot_at, "booked"⟩ :
          Appointment).doctor_user_id = u ∧ role = "doctor") := by
      rcases hcaller with ⟨hu, hr⟩ | ⟨hu, hr⟩
      · left; exact ⟨hu.symm, hr⟩
      · right; exact ⟨hu.symm, hr⟩
    rw [cancel_success g3 hA1
      (rfl : (⟨db.nextApptId, p1, s.doctor_user_id, s.slot_at, "booked"⟩ :
        Appointment).id = db.nextApptId) hauth']
    apply congrArg (Prod.mk CancelResult.canceled)
    show DB.mk db.doctors
        (releaseSlotUpdate (bookedSlotUpdate db.slots s.id) s.doctor_user_id s.slot_at)
        ((db.appointments ++
          [(⟨db.nextApptId, p1, s.doctor_user_id, s.slot_at, "booked"⟩ : Appointment)]).filter
            (fun x => x.id != db.nextApptId))
        db.nextSlotId (db.nextApptId + 1) = _
    rw [hslots, happts]
  · -- the second claim by a different patient succeeds on the restored state
    exact @book_success
      ⟨db.doctors, db.slots, db.appointments, db.nextSlotId, db.nextApptId + 1⟩
      p2 s h1 (h7 s hs) hs hfree hnokey

theorem claim_cancel_reclaim_witness :
    ∃ db1 db2 : DB,
      bookAppointment dbW 21 1 = (.created ⟨6, 21, 10, 100, "booked"⟩ 1, db1) ∧
      cancelAppointment db1 21 "patient" 6 = (.canceled, db2) ∧
      db2.slots = dbW.slots ∧ (⟨1, 10, 100, false⟩ : Slot) ∈ db2.slots ∧
      (⟨1, 10, 100, false⟩ : Slot).is_booked = false ∧
      bookAppointment db2 22 1 =
        (.created ⟨db2.nextApptId, 22, 10, 100, "booked"⟩ 1,
         { db2 with
             slots := bookedSlotUpdate db2.slots 1,
             appointments := db2.appointments ++ [⟨db2.nextApptId, 22, 10, 100, "booked"⟩],
             nextApptId := db2.nextApptId + 1 }) :=
  claim_cancel_reclaim dbW 21 22 21 "patient" ⟨1, 10, 100, false⟩
    (by decide) (by decide) (by decide) rfl (Or.inl ⟨rfl, rfl⟩)

/-! ### Concurrency model for claim races (claim C3)

`POST /appointments` touches the shared database at two points: the initial
SELECT of the slot row with the `is_booked` pre-check (server.js lines
290-299), and the transaction whose conditional `UPDATE doctor_slots SET
is_booked = 1 WHERE id = ? AND is_booked = 0` plus appointment INSERT
commit atomically (lines 305-332).  A run of N concurrent claim attempts by
distinct patients on one fixed, initially free slot is therefore an
arbitrary interleaving of N `read` events (the SELECT, recording the flag
each attempt observed) and N `tx` events (the atomic transaction, deciding
on the recorded observation and the current flag), where each attempt's
read precedes its transaction. -/

/-- The two database touchpoints of claim attempt `i`. -/
inductive Ev where
  | read (i : Nat)
  | tx (i : Nat)
deriving DecidableEq, Repr

/-- Outcome of one claim attempt in the race model. -/
inductive RaceRes where
  /-- 409 "Slot already booked": the optimistic pre-check saw the flag set -/
  | conflictPre
  /-- 409 "Slot already booked (race)": the conditional UPDATE affected 0 rows -/
  | conflictRace
  /-- 500: the appointment INSERT failed, transaction rolled back -/
  | internalErr
  /-- 201: the attempt claimed the slot and committed its appointment -/
  | success
deriving DecidableEq, Repr

/-- Shared state of the race on one slot: the slot's `is_booked` flag, the
number of appointment rows with the slot's composite key, each attempt's
recorded observation of the flag, and each attempt's final result. -/
structure RaceState where
  booked : Bool
  appts : Nat
  obs : Nat → Option Bool
  res : Nat → Option RaceRes

/-- The race starts on a free slot with no appointment row for its key and
no attempt yet started. -/
def initialRace : RaceState := ⟨false, 0, fun _ => none, fun _ => none⟩

/-- One atomic step.  `read i` records the flag attempt `i` observes in its
SELECT.  `tx i` runs attempt `i`'s transaction: if the recorded flag was set
the request had already been rejected by the pre-check (409); otherwise the
conditional UPDATE either loses (flag meanwhile set: 0 affected rows,
rollback, 409 race) or wins, after which the INSERT succeeds iff no
appointment row with the key exists (else rollback and 500). -/
def raceStep (st : RaceState) : Ev → RaceState
  | .read i => { st with obs := Function.update st.obs i (some st.booked) }
  | .tx i =>
    match st.obs i with
    | none => st
    | some true => { st with res := Function.update st.res i (some .conflictPre) }
    | some false =>
      if st.booked then { st with res := Function.update st.res i (some .conflictRace) }
      else if st.appts == 0 then
        { st with booked := true, appts := st.appts + 1,
                  res := Function.update st.res i (some .success) }
      else { st with res := Function.update st.res i (some .internalErr) }

/-- Execution of an interleaving. -/
def runRace (st : RaceState) (sched : List Ev) : RaceState := sched.foldl raceStep st

/-- The attempt an event belongs to. -/
def evIdx : Ev → Nat
  | .read i => i
  | .tx i => i

/-- Position of the first occurrence of an event in a schedule. -/
def idxOfEv : List Ev → Ev → Nat
  | [], _ => 0
  | e :: rest, a => if e = a then 0 else idxOfEv rest a + 1

/-- A legal interleaving of N claim attempts: every event occurs once,
events belong to attempts 0..N-1, every attempt both reads and transacts,
and each attempt's read comes before its transaction. -/
def ValidSched (N : Nat) (sched : List Ev) : Prop :=
  sched.Nodup ∧
  (∀ e ∈ sched, evIdx e < N) ∧
  (∀ i < N, Ev.read i ∈ sched ∧ Ev.tx i ∈ sched) ∧
  (∀ i < N, idxOfEv sched (Ev.read i) < idxOfEv sched (Ev.tx i))

instance (N : Nat) (sched : List Ev) : Decidable (ValidSched N sched) := by
  unfold ValidSched
  infer_instance

theorem idxOfEv_cons_self (e : Ev) (l : List Ev) : idxOfEv (e :: l) e = 0 := by
  show (if e = e then 0 else idxOfEv l e + 1) = 0
  rw [if_pos rfl]

theorem idxOfEv_cons_ne {e a : Ev} (l : List Ev) (h : ¬e = a) :
    idxOfEv (e :: l) a = idxOfEv l a + 1 := by
  show (if e = a then 0 else idxOfEv l a + 1) = idxOfEv l a + 1
  rw [if_neg h]

/-- The inductive invariant tying the current race state to the remaining
schedule. -/
structure RaceInv (N : Nat) (st : RaceState) (rem : List Ev) : Prop where
  nodup : rem.Nodup
  idxLt : ∀ e ∈ rem, evIdx e < N
  resPending : ∀ i < N, (st.res i = none ↔ Ev.tx i ∈ rem)
  obsPending : ∀ i, Ev.read i ∈ rem → st.obs i = none
  obsSet : ∀ i < N, st.obs i = none → Ev.read i ∈ rem
  readBefore : ∀ i, Ev.read i ∈ rem → Ev.tx i ∈ rem →
    idxOfEv rem (Ev.read i) < idxOfEv rem (Ev.tx i)
  bookedIff : st.booked = true ↔ ∃ j, st.res j = some RaceRes.success
  apptsLe : st.appts ≤ 1
  apptsIff : st.appts = 1 ↔ ∃ j, st.res j = some RaceRes.success
  uniqueSucc : ∀ i j, st.res i = some RaceRes.success →
    st.res j = some RaceRes.success → i = j
  resIdx : ∀ i, st.res i ≠ none → i < N
  obsTrue : ∀ i, st.obs i = some true → ∃ j, st.res j = some RaceRes.success
  noInternal : ∀ i, st.res i ≠ some RaceRes.internalErr
  failImplies : ∀ i r, st.res i = some r → r ≠ RaceRes.success →
    ∃ j, st.res j = some RaceRes.success

theorem tx_ne_read (i j : Nat) : Ev.tx i ≠ Ev.read j := fun h => Ev.noConfusion h

theorem read_ne_tx (i j : Nat) : Ev.read i ≠ Ev.tx j := fun h => Ev.noConfusion h

theorem read_inj {i j : Nat} (h : Ev.read i = Ev.read j) : i = j := by injection h

theorem tx_inj {i j : Nat} (h : Ev.tx i = Ev.tx j) : i = j := by injection h

theorem raceInv_read_update {N : Nat} {st : RaceState} {rem : List Ev} {i : Nat}
    (h : RaceInv N st (Ev.read i :: rem)) :
    RaceInv N { st with obs := Function.update st.obs i (some st.booked) } rem := by
  have hcons := List.nodup_cons.mp h.nodup
  refine ⟨hcons.2, fun e he => h.idxLt e (List.mem_cons_of_mem _ he), ?_, ?_, ?_, ?_,
    h.bookedIff, h.apptsLe, h.apptsIff, h.uniqueSucc, h.resIdx, ?_, h.noInternal,
    h.failImplies⟩
  · intro j hjN
    have hP := h.resPending j hjN
    constructor
    · intro hn
      rcases List.mem_cons.mp (hP.mp hn) with he | he
      · exact absurd he (tx_ne_read j i)
      · exact he
    · intro hmem
      exact hP.mpr (List.mem_cons_of_mem _ hmem)
  · intro j hr
    have hji : ¬j = i := by
      intro hji
      exact hcons.1 (hji ▸ hr)
    show Function.update st.obs i (some st.booked) j = none
    rw [Function.update_noteq hji _ _]
    exact h.obsPending j (List.mem_cons_of_mem _ hr)
  · intro j hjN hn
    have hn' : Function.update st.obs i (some st.booked) j = none := hn
    by_cases hji : j = i
    · subst hji
      rw [Function.update_same] at hn'
      exact absurd hn' (by simp)
    · rw [Function.update_noteq hji _ _] at hn'
      have hmem := h.obsSet j hjN hn'
      rcases List.mem_cons.mp hmem with he | he
      · exact absurd (read_inj he) hji
      · exact he
  · intro j hr ht
    have h1 := h.readBefore j (List.mem_cons_of_mem _ hr) (List.mem_cons_of_mem _ ht)
    rw [idxOfEv_cons_ne _ (fun hh => hcons.1 (by rw [hh]; exact hr)),
        idxOfEv_cons_ne _ (fun hh => hcons.1 (by rw [hh]; exact ht))] at h1
    omega
  · intro j hj
    have hj' : Function.update st.obs i (some st.booked) j = some true := hj
    by_cases hji : j = i
    · subst hji
      rw [Function.update_same] at hj'
      exact h.bookedIff.mp (Option.some.inj hj')
    · rw [Function.update_noteq hji _ _] at hj'
      exact h.obsTrue j hj'

theorem raceInv_conflict_update {N : Nat} {st : RaceState} {rem : List Ev} {i : Nat}
    {r : RaceRes} (h : RaceInv N st (Ev.tx i :: rem))
    (hns : r ≠ RaceRes.success) (hni : r ≠ RaceRes.internalErr)
    (hex : ∃ j, st.res j = some RaceRes.success) :
    RaceInv N { st with res := Function.update st.res i (some r) } rem := by
  have hcons := List.nodup_cons.mp h.nodup
  have hiN : i < N := h.idxLt (Ev.tx i) (List.mem_cons_self _ _)
  have hres_i : st.res i = none := (h.resPending i hiN).mpr (List.mem_cons_self _ _)
  have htrans : ∀ j, Function.update st.res i (some r) j = some RaceRes.success ↔
      st.res j = some RaceRes.success := by
    intro j
    by_cases hj : j = i
    · subst hj
      rw [Function.update_same]
      constructor
      · intro hsome
        exact absurd (Option.some.inj hsome) hns
      · intro hsome
        rw [hres_i] at hsome
        exact absurd hsome (by simp)
    · rw [Function.update_noteq hj _ _]
  refine ⟨hcons.2, fun e he => h.idxLt e (List.mem_cons_of_mem _ he),
    ?_, ?_, ?_, ?_, ?_, h.apptsLe, ?_, ?_, ?_, ?_, ?_, ?_⟩
  · intro j hjN
    have hP := h.resPending j hjN
    by_cases hj : j = i
    · subst hj
      show Function.update st.res j (some r) j = none ↔ Ev.tx j ∈ rem
      rw [Function.update_same]
      exact iff_of_false (by simp) hcons.1
    · show Function.update st.res i (some r) j = none ↔ Ev.tx j ∈ rem
      rw [Function.update_noteq hj _ _]
      constructor
      · intro hn
        rcases List.mem_cons.mp (hP.mp hn) with he | he
        · exact absurd (tx_inj he) hj
        · exact he
      · intro hmem
        exact hP.mpr (List.mem_cons_of_mem _ hmem)
  · intro j hr
    exact h.obsPending j (List.mem_cons_of_mem _ hr)
  · intro j hjN hn
    have hmem := h.obsSet j hjN hn
    rcases List.mem_cons.mp hmem with he | he
    · exact absurd he (read_ne_tx j i)
    · exact he
  · intro j hr ht
    have h1 := h.readBefore j (List.mem_cons_of_mem _ hr) (List.mem_cons_of_mem _ ht)
    rw [idxOfEv_cons_ne _ (fun hh => hcons.1 (by rw [hh]; exact hr)),
        idxOfEv_cons_ne _ (fun hh => hcons.1 (by rw [hh]; exact ht))] at h1
    omega
  · constructor
    · intro hb
      rcases h.bookedIff.mp hb with ⟨j, hj⟩
      exact ⟨j, (htrans j).mpr hj⟩
    · intro hb
      rcases hb with ⟨j, hj⟩
      exact h.bookedIff.mpr ⟨j, (htrans j).mp hj⟩
  · constructor
    · intro ha
      rcases h.apptsIff.mp ha with ⟨j, hj⟩
      exact ⟨j, (htrans j).mpr hj⟩
    · intro hb
      rcases hb with ⟨j, hj⟩
      exact h.apptsIff.mpr ⟨j, (htrans j).mp hj⟩
  · intro j k hj hk
    exact h.uniqueSucc j k ((htrans j).mp hj) ((htrans k).mp hk)
  · intro j hne
    by_cases hj : j = i
    · subst hj
      exact hiN
    · refine h.resIdx j ?_
      have : Function.update st.res i (some r) j ≠ none := hne
      rw [Function.update_noteq hj _ _] at this
      exact this
  · intro j hj
    rcases h.obsTrue j hj with ⟨k, hk⟩
    exact ⟨k, (htrans k).mpr hk⟩
  · intro j
    by_cases hj : j = i
    · subst hj
      show Function.update st.res j (some r) j ≠ some RaceRes.internalErr
      rw [Function.update_same]
      intro hsome
      exact hni (Option.some.inj hsome)
    · show Function.update st.res i (some r) j ≠ some RaceRes.internalErr
      rw [Function.update_noteq hj _ _]
      exact h.noInternal j
  · intro j r' _ _
    rcases hex with ⟨k, hk⟩
    exact ⟨k, (htrans k).mpr hk⟩

theorem raceInv_success_update {N : Nat} {st : RaceState} {rem : List Ev} {i : Nat}
    (h : RaceInv N st (Ev.tx i :: rem))
    (hbk : st.booked = false) (happts : st.appts = 0) :
    RaceInv N { st with booked := true, appts := st.appts + 1,
                        res := Function.update st.res i (some RaceRes.success) } rem := by
  have hcons := List.nodup_cons.mp h.nodup
  have hiN : i < N := h.idxLt (Ev.tx i) (List.mem_cons_self _ _)
  have hres_i : st.res i = none := (h.resPending i hiN).mpr (List.mem_cons_self _ _)
  have hnosucc : ∀ j, st.res j ≠ some RaceRes.success := by
    intro j hj
    have hb := h.bookedIff.mpr ⟨j, hj⟩
    rw [hbk] at hb
    exact Bool.false_ne_true hb
  have hself : Function.update st.res i (some RaceRes.success) i =
      some RaceRes.success := Function.update_same _ _ _
  refine ⟨hcons.2, fun e he => h.idxLt e (List.mem_cons_of_mem _ he),
    ?_, ?_, ?_, ?_, ?_, ?_, ?_, ?_, ?_, ?_, ?_, ?_⟩
  · intro j hjN
    have hP := h.resPending j hjN
    by_cases hj : j = i
    · subst hj
      show Function.update st.res j (some RaceRes.success) j = none ↔ Ev.tx j ∈ rem
      rw [Function.update_same]
      exact iff_of_false (by simp) hcons.1
    · show Function.update st.res i (some RaceRes.success) j = none ↔ Ev.tx j ∈ rem
      rw [Function.update_noteq hj _ _]
      constructor
      · intro hn
        rcases List.mem_cons.mp (hP.mp hn) with he | he
        · exact absurd (tx_inj he) hj
        · exact he
      · intro hmem
        exact hP.mpr (List.mem_cons_of_mem _ hmem)
  · intro j hr
    exact h.obsPending j (List.mem_cons_of_mem _ hr)
  · intro j hjN hn
    have hmem := h.obsSet j hjN hn
    rcases List.mem_cons.mp hmem with he | he
    · exact absurd he (read_ne_tx j i)
    · exact he
  · intro j hr ht
    have h1 := h.readBefore j (List.mem_cons_of_mem _ hr) (List.mem_cons_of_mem _ ht)
    rw [idxOfEv_cons_ne _ (fun hh => hcons.1 (by rw [hh]; exact hr)),
        idxOfEv_cons_ne _ (fun hh => hcons.1 (by rw [hh]; exact ht))] at h1
    omega
  · exact iff_of_true rfl ⟨i, hself⟩
  · show st.appts + 1 ≤ 1
    omega
  · have h1 : st.appts + 1 = 1 := by omega
    exact iff_of_true h1 ⟨i, hself⟩
  · intro j k hj hk
    have hj' : Function.update st.res i (some RaceRes.success) j =
        some RaceRes.success := hj
    have hk' : Function.update st.res i (some RaceRes.success) k =
        some RaceRes.success := hk
    by_cases hji : j = i
    · by_cases hki : k = i
      · rw [hji, hki]
      · rw [Function.update_noteq hki _ _] at hk'
        exact absurd hk' (hnosucc k)
    · rw [Function.update_noteq hji _ _] at hj'
      exact absurd hj' (hnosucc j)
  · intro j hne
    by_cases hj : j = i
    · subst hj
      exact hiN
    · refine h.resIdx j ?_
      have hne' : Function.update st.res i (some RaceRes.success) j ≠ none := hne
      rw [Function.update_noteq hj _ _] at hne'
      exact hne'
  · intro j _
    exact ⟨i, hself⟩
  · intro j
    by_cases hj : j = i
    · subst hj
      show Function.update st.res j (some RaceRes.success) j ≠ some RaceRes.internalErr
      rw [Function.update_same]
      intro hsome
      exact RaceRes.noConfusion (Option.some.inj hsome)
    · show Function.update st.res i (some RaceRes.success) j ≠ some RaceRes.internalErr
      rw [Function.update_noteq hj _ _]
      exact h.noInternal j
  · intro j r' _ _
    exact ⟨i, hself⟩

theorem raceInv_step {N : Nat} {st : RaceState} {e : Ev} {rem : List Ev}
    (h : RaceInv N st (e :: rem)) : RaceInv N (raceStep st e) rem := by
  cases e with
  | read i => exact raceInv_read_update h
  | tx i =>
    have hiN : i < N := h.idxLt (Ev.tx i) (List.mem_cons_self _ _)
    have hobs : st.obs i ≠ none := by
      intro hnone
      have hread := h.obsSet i hiN hnone
      have h1 := h.readBefore i hread (List.mem_cons_self _ _)
      rw [idxOfEv_cons_self] at h1
      omega
    cases hobsval : st.obs i with
    | none => exact absurd hobsval hobs
    | some b =>
      cases b with
      | true =>
        have hstep : raceStep st (Ev.tx i) =
            { st with res := Function.update st.res i (some RaceRes.conflictPre) } := by
          simp only [raceStep]
          rw [hobsval]
        rw [hstep]
        exact raceInv_conflict_update h (fun hh => RaceRes.noConfusion hh)
          (fun hh => RaceRes.noConfusion hh) (h.obsTrue i hobsval)
      | false =>
        by_cases hbk : st.booked = true
        · have hstep : raceStep st (Ev.tx i) =
              { st with res := Function.update st.res i (some RaceRes.conflictRace) } := by
            simp only [raceStep]
            rw [hobsval, if_pos hbk]
          rw [hstep]
          exact raceInv_conflict_update h (fun hh => RaceRes.noConfusion hh)
            (fun hh => RaceRes.noConfusion hh) (h.bookedIff.mp hbk)
        · have hbk' : st.booked = false := by
            cases hb : st.booked
            · rfl
            · exact absurd hb hbk
          have happts0 : st.appts = 0 := by
            by_contra hne0
            have hle := h.apptsLe
            have h1 : st.appts = 1 := by omega
            have hb := h.bookedIff.mpr (h.apptsIff.mp h1)
            rw [hbk'] at hb
            exact Bool.false_ne_true hb
          have hstep : raceStep st (Ev.tx i) =
              { st with booked := true, appts := st.appts + 1,
                        res := Function.update st.res i (some RaceRes.success) } := by
            simp only [raceStep]
            rw [hobsval, if_neg hbk, if_pos (by rw [happts0]; rfl)]
          rw [hstep]
          exact raceInv_success_update h hbk' happts0

theorem raceInv_run {N : Nat} (sched : List Ev) :
    ∀ st : RaceState, RaceInv N st sched → RaceInv N (runRace st sched) [] := by
  induction sched with
  | nil => intro st h; exact h
  | cons e rest ih =>
    intro st h
    exact ih (raceStep st e) (raceInv_step h)

theorem raceInv_initial {N : Nat} {sched : List Ev} (hv : ValidSched N sched) :
    RaceInv N initialRace sched := by
  obtain ⟨hnd, hidx, hmem, hrb⟩ := hv
  refine ⟨hnd, hidx, ?_, ?_, ?_, ?_, ?_, ?_, ?_, ?_, ?_, ?_, ?_, ?_⟩
  · intro i hiN
    exact iff_of_true rfl (hmem i hiN).2
  · intro i _
    rfl
  · intro i hiN _
    exact (hmem i hiN).1
  · intro i hr _
    exact hrb i (hidx _ hr)
  · refine iff_of_false (by decide) ?_
    rintro ⟨j, hj⟩
    exact Option.noConfusion hj
  · exact Nat.zero_le 1
  · refine iff_of_false (by decide) ?_
    rintro ⟨j, hj⟩
    exact Option.noConfusion hj
  · intro i j hi _
    exact absurd hi (fun hh => Option.noConfusion hh)
  · intro i hne
    exact absurd rfl hne
  · intro i hj
    exact absurd hj (fun hh => Option.noConfusion hh)
  · intro i hj
    exact Option.noConfusion hj
  · intro i r hi _
    exact absurd hi (fun hh => Option.noConfusion hh)

theorem race_final {N : Nat} {sched : List Ev} (hN : 0 < N) (hv : ValidSched N sched) :
    ∃ w, w < N ∧ (runRace initialRace sched).res w = some RaceRes.success ∧
      ∀ j, j < N → j ≠ w →
        ((runRace initialRace sched).res j = some RaceRes.conflictPre ∨
         (runRace initialRace sched).res j = some RaceRes.conflictRace) := by
  have hF := raceInv_run sched initialRace (raceInv_initial hv)
  have hres : ∀ j, j < N → ∃ r, (runRace initialRace sched).res j = some r := by
    intro j hj
    cases hr : (runRace initialRace sched).res j with
    | none =>
      have := (hF.resPending j hj).mp hr
      exact absurd this (List.not_mem_nil _)
    | some r => exact ⟨r, rfl⟩
  rcases hres 0 hN with ⟨r0, hr0⟩
  have hw : ∃ w, (runRace initialRace sched).res w = some RaceRes.success := by
    by_cases hs0 : r0 = RaceRes.success
    · exact ⟨0, hs0 ▸ hr0⟩
    · exact hF.failImplies 0 r0 hr0 hs0
  rcases hw with ⟨w, hwsucc⟩
  have hwN : w < N := hF.resIdx w (by rw [hwsucc]; simp)
  refine ⟨w, hwN, hwsucc, ?_⟩
  intro j hjN hjw
  rcases hres j hjN with ⟨r, hr⟩
  have hrs : r ≠ RaceRes.success := by
    intro hh
    exact hjw (hF.uniqueSucc j w (hh ▸ hr) hwsucc)
  have hri : r ≠ RaceRes.internalErr := by
    intro hh
    exact hF.noInternal j (hh ▸ hr)
  cases r with
  | conflictPre => exact Or.inl hr
  | conflictRace => exact Or.inr hr
  | internalErr => exact absurd rfl hri
  | success => exact absurd rfl hrs

/-- Recognizer for transaction events. -/
def isTx : Ev → Bool
  | .tx _ => true
  | .read _ => false

/-- Recognizer for read events. -/
def isRead : Ev → Bool
  | .read _ => true
  | .tx _ => false

/-- A schedule in which every pre-check SELECT happens before any
transaction: the maximal-contention interleaving in which the optimistic
pre-check catches nothing. -/
def readsThenTxs : List Ev → Bool
  | [] => true
  | Ev.read _ :: rest => readsThenTxs rest
  | Ev.tx _ :: rest => rest.all isTx

theorem readsThenTxs_split : ∀ {sched : List Ev}, readsThenTxs sched = true →
    ∃ rl tl, sched = rl ++ tl ∧ (∀ e ∈ rl, isRead e = true) ∧
      (∀ e ∈ tl, isTx e = true) := by
  intro sched
  induction sched with
  | nil =>
    intro _
    exact ⟨[], [], rfl, fun e he => absurd he (List.not_mem_nil e),
      fun e he => absurd he (List.not_mem_nil e)⟩
  | cons e rest ih =>
    intro h
    cases e with
    | read i =>
      have h' : readsThenTxs rest = true := h
      rcases ih h' with ⟨rl, tl, heq, hr, ht⟩
      refine ⟨Ev.read i :: rl, tl, by rw [heq]; rfl, ?_, ht⟩
      intro e he
      rcases List.mem_cons.mp he with he' | he'
      · rw [he']; rfl
      · exact hr e he'
    | tx i =>
      have h' : rest.all isTx = true := h
      refine ⟨[], Ev.tx i :: rest, rfl, fun e he => absurd he (List.not_mem_nil e), ?_⟩
      intro e he
      rcases List.mem_cons.mp he with he' | he'
      · rw [he']; rfl
      · exact List.all_eq_true.mp h' e he'

theorem run_reads_only (rl : List Ev) (hr : ∀ e ∈ rl, isRead e = true) :
    ∀ st : RaceState, st.booked = false → (∀ i, st.obs i ≠ some true) →
      (runRace st rl).booked = false ∧ (runRace st rl).res = st.res ∧
      (∀ i, (runRace st rl).obs i ≠ some true) := by
  induction rl with
  | nil => intro st h1 h2; exact ⟨h1, rfl, h2⟩
  | cons e rest ih =>
    intro st h1 h2
    cases e with
    | tx i =>
      exact absurd (hr (Ev.tx i) (List.mem_cons_self _ _)) (fun hh => Bool.noConfusion hh)
    | read i =>
      have h2' : ∀ j, ({ st with
          obs := Function.update st.obs i (some st.booked) } : RaceState).obs j ≠
            some true := by
        intro j
        show Function.update st.obs i (some st.booked) j ≠ some true
        by_cases hji : j = i
        · subst hji
          rw [Function.update_same, h1]
          intro hh
          exact Bool.noConfusion (Option.some.inj hh)
        · rw [Function.update_noteq hji _ _]
          exact h2 j
      exact ih (fun e he => hr e (List.mem_cons_of_mem _ he))
        { st with obs := Function.update st.obs i (some st.booked) } h1 h2'

theorem raceStep_tx_res_pre {st : RaceState} {j i : Nat}
    (hobs : st.obs j ≠ some true)
    (h : (raceStep st (Ev.tx j)).res i = some RaceRes.conflictPre) :
    st.res i = some RaceRes.conflictPre := by
  cases hv : st.obs j with
  | none =>
    have hstep : raceStep st (Ev.tx j) = st := by
      simp only [raceStep]
      rw [hv]
    rw [hstep] at h
    exact h
  | some b =>
    cases b with
    | true => exact absurd hv hobs
    | false =>
      by_cases hbk : st.booked = true
      · have hstep : raceStep st (Ev.tx j) =
            { st with res := Function.update st.res j (some RaceRes.conflictRace) } := by
          simp only [raceStep]
          rw [hv, if_pos hbk]
        rw [hstep] at h
        have h' : Function.update st.res j (some RaceRes.conflictRace) i =
            some RaceRes.conflictPre := h
        by_cases hij : i = j
        · subst hij
          rw [Function.update_same] at h'
          exact absurd (Option.some.inj h') (fun hh => RaceRes.noConfusion hh)
        · rw [Function.update_noteq hij _ _] at h'
          exact h'
      · by_cases ha : (st.appts == 0) = true
        · have hstep : raceStep st (Ev.tx j) =
              { st with booked := true, appts := st.appts + 1,
                        res := Function.update st.res j (some RaceRes.success) } := by
            simp only [raceStep]
            rw [hv, if_neg hbk, if_pos ha]
          rw [hstep] at h
          have h' : Function.update st.res j (some RaceRes.success) i =
              some RaceRes.conflictPre := h
          by_cases hij : i = j
          · subst hij
            rw [Function.update_same] at h'
            exact absurd (Option.some.inj h') (fun hh => RaceRes.noConfusion hh)
          · rw [Function.update_noteq hij _ _] at h'
            exact h'
        · have hstep : raceStep st (Ev.tx j) =
              { st with res := Function.update st.res j (some RaceRes.internalErr) } := by
            simp only [raceStep]
            rw [hv, if_neg hbk, if_neg ha]
          rw [hstep] at h
          have h' : Function.update st.res j (some RaceRes.internalErr) i =
              some RaceRes.conflictPre := h
          by_cases hij : i = j
          · subst hij
            rw [Function.update_same] at h'
            exact absurd (Option.some.inj h') (fun hh => RaceRes.noConfusion hh)
          · rw [Function.update_noteq hij _ _] at h'
            exact h'

theorem raceStep_tx_obs (st : RaceState) (j : Nat) :
    (raceStep st (Ev.tx j)).obs = st.obs := by
  cases hv : st.obs j with
  | none =>
    simp only [raceStep]
    rw [hv]
  | some b =>
    cases b with
    | true =>
      simp only [raceStep]
      rw [hv]
    | false =>
      simp only [raceStep]
      rw [hv]
      by_cases hbk : st.booked = true
      · rw [if_pos hbk]
      · rw [if_neg hbk]
        by_cases ha : (st.appts == 0) = true
        · rw [if_pos ha]
        · rw [if_neg ha]

theorem run_txs_no_pre (tl : List Ev) (ht : ∀ e ∈ tl, isTx e = true) :
    ∀ st : RaceState, (∀ i, st.obs i ≠ some true) →
      ∀ i, (runRace st tl).res i = some RaceRes.conflictPre →
        st.res i = some RaceRes.conflictPre := by
  induction tl with
  | nil => intro st _ i h; exact h
  | cons e rest ih =>
    intro st hobs i hres
    cases e with
    | read j =>
      exact absurd (ht (Ev.read j) (List.mem_cons_self _ _)) (fun hh => Bool.noConfusion hh)
    | tx j =>
      have hobs' : ∀ k, (raceStep st (Ev.tx j)).obs k ≠ some true := by
        intro k
        rw [raceStep_tx_obs]
        exact hobs k
      have hmid := ih (fun e he => ht e (List.mem_cons_of_mem _ he))
        (raceStep st (Ev.tx j)) hobs' i hres
      exact raceStep_tx_res_pre (hobs j) hmid

/-- Claim C3: under any legal interleaving of N ≥ 1 concurrent claim
attempts by distinct patients on the same initially free slot, exactly one
attempt succeeds and every other attempt observes a 409 Conflict (never a
500); and in a true race — every pre-check SELECT running before any
transaction, so the optimistic pre-check rejects nobody — every losing
attempt is rejected by the atomic conditional UPDATE (affected-row count
zero), not by the pre-check. -/
theorem concurrent_claims_exactly_one (N : Nat) (sched : List Ev)
    (hN : 0 < N) (hv : ValidSched N sched) :
    (∃ w, w < N ∧ (runRace initialRace sched).res w = some RaceRes.success ∧
      ∀ j, j < N → j ≠ w →
        ((runRace initialRace sched).res j = some RaceRes.conflictPre ∨
         (runRace initialRace sched).res j = some RaceRes.conflictRace)) ∧
    (readsThenTxs sched = true →
      ∀ j, j < N → (runRace initialRace sched).res j ≠ some RaceRes.success →
        (runRace initialRace sched).res j = some RaceRes.conflictRace) := by
  refine ⟨race_final hN hv, ?_⟩
  intro hshape j hjN hjns
  rcases readsThenTxs_split hshape with ⟨rl, tl, heq, hrl, htl⟩
  have hmid := run_reads_only rl hrl initialRace rfl
    (fun i hh => Option.noConfusion hh)
  have hnopre : (runRace initialRace sched).res j ≠ some RaceRes.conflictPre := by
    intro hpre
    have hsplit : runRace initialRace sched = runRace (runRace initialRace rl) tl := by
      rw [heq]
      unfold runRace
      rw [List.foldl_append]
    rw [hsplit] at hpre
    have hback := run_txs_no_pre tl htl (runRace initialRace rl) hmid.2.2 j hpre
    rw [hmid.2.1] at hback
    exact Option.noConfusion hback
  rcases race_final hN hv with ⟨w, hwN, hwsucc, hlosers⟩
  have hjw : j ≠ w := by
    intro hh
    exact hjns (hh ▸ hwsucc)
  rcases hlosers j hjN hjw with hc | hc
  · exact absurd hc hnopre
  · exact hc

theorem concurrent_claims_exactly_one_witness :
    0 < 2 ∧ ValidSched 2 [Ev.read 0, Ev.read 1, Ev.tx 0, Ev.tx 1] ∧
    ((∃ w, w < 2 ∧
        (runRace initialRace [Ev.read 0, Ev.read 1, Ev.tx 0, Ev.tx 1]).res w =
          some RaceRes.success ∧
        ∀ j, j < 2 → j ≠ w →
          ((runRace initialRace [Ev.read 0, Ev.read 1, Ev.tx 0, Ev.tx 1]).res j =
             some RaceRes.conflictPre ∨
           (runRace initialRace [Ev.read 0, Ev.read 1, Ev.tx 0, Ev.tx 1]).res j =
             some RaceRes.conflictRace)) ∧
     (readsThenTxs [Ev.read 0, Ev.read 1, Ev.tx 0, Ev.tx 1] = true →
      ∀ j, j < 2 →
        (runRace initialRace [Ev.read 0, Ev.read 1, Ev.tx 0, Ev.tx 1]).res j ≠
          some RaceRes.success →
        (runRace initialRace [Ev.read 0, Ev.read 1, Ev.tx 0, Ev.tx 1]).res j =
          some RaceRes.conflictRace)) :=
  ⟨by decide, by decide,
   concurrent_claims_exactly_one 2 [Ev.read 0, Ev.read 1, Ev.tx 0, Ev.tx 1]
     (by decide) (by decide)⟩
